import Mathlib

/-!
Verification of the komarc repository (ISBN → KORMARC conversion tools).

Python strings are modelled as `List Char` (one entry per Unicode code
point, matching Python's `str`).  Character-class predicates taken from
Python (`str.isdigit`, `\s`, `str.strip`, `str.lower`) are modelled on
their ASCII behaviour, which is the only behaviour the repository's data
exercises.  Fallible Python code (functions that can raise) is modelled
with `Except`/`Option`; external side-effecting steps (HTTP requests, spreadsheet
loads, `datetime.now()`) enter as explicit parameters.
-/

/-- Python whitespace (`str.strip` / regex `\s`), ASCII part. -/
def pyIsSpace (c : Char) : Bool :=
  c = ' ' || c = '\t' || c = '\n' || c = '\r' || c = '\x0b' || c = '\x0c'

/-- Python `str.lstrip()`. -/
def pyStripLeft (l : List Char) : List Char := l.dropWhile pyIsSpace

/-- Python `str.rstrip()`. -/
def pyStripRight (l : List Char) : List Char := (l.reverse.dropWhile pyIsSpace).reverse

/-- Python `str.strip()`. -/
def pyStrip (l : List Char) : List Char := pyStripRight (pyStripLeft l)

/-- `listStartsWith pat l`: Python `l.startswith(pat)`. -/
def listStartsWith : List Char → List Char → Bool
  | [], _ => true
  | _ :: _, [] => false
  | p :: ps, c :: cs => p = c && listStartsWith ps cs

/-- `containsSub pat l`: Python `pat in l` (substring containment). -/
def containsSub (p : List Char) : List Char → Bool
  | [] => listStartsWith p []
  | c :: rest => listStartsWith p (c :: rest) || containsSub p rest

/-- `pad` helper nested in `build_008_kormarc_bk`: `(s[:n] + " "*n)[:n]`. -/
def pad008 (s : List Char) (n : Nat) : List Char :=
  (s.take n ++ List.replicate n ' ').take n

theorem pad008_length (s : List Char) (n : Nat) : (pad008 s n).length = n := by
  simp [pad008, List.length_take]

/-- Body layout shared by both copies of `build_008_kormarc_bk`; positions
29 and 30 are passed in because the two copies disagree there
(`"0","0"` in the unnamed file, `" "," "` in 지하쌤.py). -/
def body008 (p29 p30 : Char)
    (date_entered date1 country3 lang3 date2 illus4 has_index lit_form bio
     type_of_date modified_record cataloging_src : List Char) : List Char :=
  date_entered ++
  pad008 type_of_date 1 ++
  date1 ++
  pad008 date2 4 ++
  pad008 country3 3 ++
  pad008 illus4 4 ++
  List.replicate 4 ' ' ++
  List.replicate 2 ' ' ++
  pad008 modified_record 1 ++
  [p29] ++
  [p30] ++
  (if has_index = ['0'] ∨ has_index = ['1'] then has_index else ['0']) ++
  pad008 cataloging_src 1 ++
  pad008 lit_form 1 ++
  pad008 bio 1 ++
  pad008 lang3 3 ++
  List.replicate 2 ' '

/-- `build_008_kormarc_bk` from the unnamed source file (positions 29/30
hold `'0','0'`).  Raising `ValueError`/`AssertionError` is modelled by
`Except.error`. -/
def build_008_kormarc_bk
    (date_entered date1 country3 lang3 date2 illus4 has_index lit_form bio
     type_of_date modified_record cataloging_src : List Char) :
    Except String (List Char) :=
  if ¬ (date_entered.length = 6 ∧ date_entered.all Char.isDigit) then
    .error "date_entered must be a 6-digit YYMMDD"
  else if date1.length ≠ 4 then
    .error "date1 must be 4 chars"
  else
    let body := body008 '0' '0' date_entered date1 country3 lang3 date2 illus4
      has_index lit_form bio type_of_date modified_record cataloging_src
    if body.length ≠ 40 then .error "008 length != 40" else .ok body

/-- `build_008_kormarc_bk` from 지하쌤.py (positions 29/30 hold spaces). -/
def build_008_kormarc_bk_jiha
    (date_entered date1 country3 lang3 date2 illus4 has_index lit_form bio
     type_of_date modified_record cataloging_src : List Char) :
    Except String (List Char) :=
  if ¬ (date_entered.length = 6 ∧ date_entered.all Char.isDigit) then
    .error "date_entered must be a 6-digit YYMMDD"
  else if date1.length ≠ 4 then
    .error "date1 must be 4 chars"
  else
    let body := body008 ' ' ' ' date_entered date1 country3 lang3 date2 illus4
      has_index lit_form bio type_of_date modified_record cataloging_src
    if body.length ≠ 40 then .error "008 length != 40" else .ok body

theorem length_body008 (p29 p30 : Char)
    (de d1 c3 l3 d2 il hi lf bo tod mr cs : List Char)
    (hde : de.length = 6) (hd1 : d1.length = 4) :
    (body008 p29 p30 de d1 c3 l3 d2 il hi lf bo tod mr cs).length = 40 := by
  have hhi : (if hi = ['0'] ∨ hi = ['1'] then hi else ['0']).length = 1 := by
    split
    · rename_i h
      rcases h with h | h <;> simp [h]
    · rfl
  simp [body008, pad008_length, hde, hd1, hhi]

/-- Extract the `B` segment from `A ++ (B ++ C)` when `A,B` have known lengths. -/
theorem seg_of_append {A B C : List Char} {n k : Nat}
    (hA : A.length = n) (hB : B.length = k) :
    ((A ++ (B ++ C)).drop n).take k = B := by
  rw [List.drop_left' hA, List.take_left' hB]

/-- C1: on a 6-digit `date_entered` and length-4 `date1`,
`build_008_kormarc_bk` returns a 40-character string whose positions 0-5
are `date_entered`, 6 is `type_of_date` padded to 1, 7-10 are `date1`,
15-17 are `country3` padded to 3, 18-21 are `illus4` padded to 4, 31 is
`has_index` when it is '0' or '1' and '0' otherwise, and 35-37 are `lang3`
padded to 3; otherwise it raises `ValueError`. -/
theorem build_008_kormarc_bk_spec
    (de d1 c3 l3 d2 il hi lf bo tod mr cs : List Char) :
    (de.length = 6 → de.all Char.isDigit → d1.length = 4 →
      ∃ body, build_008_kormarc_bk de d1 c3 l3 d2 il hi lf bo tod mr cs = .ok body ∧
        body.length = 40 ∧
        body.take 6 = de ∧
        (body.drop 6).take 1 = pad008 tod 1 ∧
        (body.drop 7).take 4 = d1 ∧
        (body.drop 15).take 3 = pad008 c3 3 ∧
        (body.drop 18).take 4 = pad008 il 4 ∧
        (body.drop 31).take 1 = (if hi = ['0'] ∨ hi = ['1'] then hi else ['0']) ∧
        (body.drop 35).take 3 = pad008 l3 3) ∧
    ((¬ (de.length = 6 ∧ de.all Char.isDigit) ∨ d1.length ≠ 4) →
      ∃ msg, build_008_kormarc_bk de d1 c3 l3 d2 il hi lf bo tod mr cs = .error msg) := by
  have hhi : (if hi = ['0'] ∨ hi = ['1'] then hi else ['0']).length = 1 := by
    split
    · rename_i h; rcases h with h | h <;> simp [h]
    · rfl
  constructor
  · intro h6 hdig h4
    have hlen := length_body008 '0' '0' de d1 c3 l3 d2 il hi lf bo tod mr cs h6 h4
    refine ⟨body008 '0' '0' de d1 c3 l3 d2 il hi lf bo tod mr cs, ?_, hlen, ?_, ?_, ?_, ?_, ?_, ?_, ?_⟩
    · unfold build_008_kormarc_bk
      rw [if_neg (by simp [h6, hdig]), if_neg (by simp [h4]), if_neg (by simp [hlen])]
    all_goals
      simp [body008, List.drop_append_eq_append_drop, List.take_append_eq_append_take,
        h6, h4, pad008_length, hhi, List.drop_eq_nil_of_le, List.take_of_length_le]
  · intro h
    unfold build_008_kormarc_bk
    by_cases hc : ¬ (de.length = 6 ∧ de.all Char.isDigit)
    · exact ⟨_, by rw [if_pos hc]⟩
    · have h4 : d1.length ≠ 4 := by
        rcases h with h | h
        · exact absurd h hc
        · exact h
      exact ⟨_, by rw [if_neg hc, if_pos h4]⟩

/-- Witness for C1 at a concrete valid input. -/
theorem build_008_kormarc_bk_spec_witness :
    ∃ body, build_008_kormarc_bk "250101".toList "2025".toList "ulk".toList "kor".toList
        [] [] ['0'] [' '] [' '] "s".toList [' '] ['a'] = .ok body ∧
      body.length = 40 ∧
      body.take 6 = "250101".toList ∧
      (body.drop 6).take 1 = pad008 "s".toList 1 ∧
      (body.drop 7).take 4 = "2025".toList ∧
      (body.drop 15).take 3 = pad008 "ulk".toList 3 ∧
      (body.drop 18).take 4 = pad008 [] 4 ∧
      (body.drop 31).take 1 = (if ['0'] = ['0'] ∨ ['0'] = ['1'] then ['0'] else ['0']) ∧
      (body.drop 35).take 3 = pad008 "kor".toList 3 :=
  (build_008_kormarc_bk_spec "250101".toList "2025".toList "ulk".toList "kor".toList
      [] [] ['0'] [' '] [' '] "s".toList [' '] ['a']).1 (by decide) (by decide) (by decide)

/-- Positions 0-28 of the 008 body, shared by both copies. -/
def front008 (de d1 c3 d2 il tod mr : List Char) : List Char :=
  de ++ (pad008 tod 1 ++ (d1 ++ (pad008 d2 4 ++ (pad008 c3 3 ++ (pad008 il 4 ++
    (List.replicate 4 ' ' ++ (List.replicate 2 ' ' ++ pad008 mr 1)))))))

/-- Positions 31-39 of the 008 body, shared by both copies. -/
def back008 (hi cs lf bo l3 : List Char) : List Char :=
  (if hi = ['0'] ∨ hi = ['1'] then hi else ['0']) ++
    (pad008 cs 1 ++ (pad008 lf 1 ++ (pad008 bo 1 ++ (pad008 l3 3 ++ List.replicate 2 ' '))))

theorem body008_decomp (p29 p30 : Char) (de d1 c3 l3 d2 il hi lf bo tod mr cs : List Char) :
    body008 p29 p30 de d1 c3 l3 d2 il hi lf bo tod mr cs =
      front008 de d1 c3 d2 il tod mr ++ ([p29] ++ ([p30] ++ back008 hi cs lf bo l3)) := by
  simp [body008, front008, back008, List.append_assoc]

theorem front008_length (de d1 c3 d2 il tod mr : List Char)
    (h6 : de.length = 6) (h4 : d1.length = 4) :
    (front008 de d1 c3 d2 il tod mr).length = 29 := by
  simp [front008, pad008_length, h6, h4]

theorem body008_take29 (p29 p30 : Char) (de d1 c3 l3 d2 il hi lf bo tod mr cs : List Char)
    (h6 : de.length = 6) (h4 : d1.length = 4) :
    (body008 p29 p30 de d1 c3 l3 d2 il hi lf bo tod mr cs).take 29 =
      front008 de d1 c3 d2 il tod mr := by
  rw [body008_decomp, List.take_left' (front008_length de d1 c3 d2 il tod mr h6 h4)]

theorem body008_drop31 (p29 p30 : Char) (de d1 c3 l3 d2 il hi lf bo tod mr cs : List Char)
    (h6 : de.length = 6) (h4 : d1.length = 4) :
    (body008 p29 p30 de d1 c3 l3 d2 il hi lf bo tod mr cs).drop 31 =
      back008 hi cs lf bo l3 := by
  rw [body008_decomp]
  have hsh : front008 de d1 c3 d2 il tod mr ++ ([p29] ++ ([p30] ++ back008 hi cs lf bo l3)) =
      (front008 de d1 c3 d2 il tod mr ++ ([p29] ++ [p30])) ++ back008 hi cs lf bo l3 := by
    simp [List.append_assoc]
  rw [hsh]
  exact List.drop_left' (by simp [front008_length de d1 c3 d2 il tod mr h6 h4])

/-- C7 counterexample: at one concrete argument tuple both copies of
`build_008_kormarc_bk` return normally but produce different strings
(they differ at body positions 29 and 30). -/
theorem build_008_copies_differ :
    build_008_kormarc_bk "250101".toList "2025".toList "ulk".toList "kor".toList
        [] [] ['0'] [' '] [' '] "s".toList [' '] ['a'] =
      .ok "250101s2025    ulk           000a  kor  ".toList ∧
    build_008_kormarc_bk_jiha "250101".toList "2025".toList "ulk".toList "kor".toList
        [] [] ['0'] [' '] [' '] "s".toList [' '] ['a'] =
      .ok "250101s2025    ulk             0a  kor  ".toList ∧
    "250101s2025    ulk           000a  kor  ".toList ≠
      "250101s2025    ulk             0a  kor  ".toList :=
  ⟨rfl, rfl, by decide⟩

/-- C7 amended: the two copies raise on exactly the same argument tuples,
and on success their outputs agree at every body position except 29 and
30, where the unnamed-file copy writes '0','0' and the 지하쌤.py copy
writes two spaces. -/
theorem build_008_copies_agree_except_29_30
    (de d1 c3 l3 d2 il hi lf bo tod mr cs : List Char) :
    build_008_kormarc_bk_jiha de d1 c3 l3 d2 il hi lf bo tod mr cs =
      (build_008_kormarc_bk de d1 c3 l3 d2 il hi lf bo tod mr cs).map
        (fun b => b.take 29 ++ ([' '] ++ ([' '] ++ b.drop 31))) ∧
    (∀ b, build_008_kormarc_bk de d1 c3 l3 d2 il hi lf bo tod mr cs = .ok b →
       (b.drop 29).take 2 = ['0', '0']) := by
  have hhi : (if hi = ['0'] ∨ hi = ['1'] then hi else ['0']).length = 1 := by
    split
    · rename_i h; rcases h with h | h <;> simp [h]
    · rfl
  constructor
  · unfold build_008_kormarc_bk build_008_kormarc_bk_jiha
    by_cases hc : ¬ (de.length = 6 ∧ de.all Char.isDigit)
    · rw [if_pos hc, if_pos hc]; rfl
    · rw [if_neg hc, if_neg hc]
      obtain ⟨h6, hdig⟩ := not_not.mp hc
      by_cases h4 : d1.length ≠ 4
      · rw [if_pos h4, if_pos h4]; rfl
      · have h4' : d1.length = 4 := not_not.mp h4
        rw [if_neg h4, if_neg h4]
        have hl0 := length_body008 '0' '0' de d1 c3 l3 d2 il hi lf bo tod mr cs h6 h4'
        have hl1 := length_body008 ' ' ' ' de d1 c3 l3 d2 il hi lf bo tod mr cs h6 h4'
        rw [if_neg (by simp [hl0, hl1]), if_neg (by simp [hl0, hl1])]
        simp only [Except.map]
        refine congrArg Except.ok ?_
        rw [body008_take29 '0' '0' de d1 c3 l3 d2 il hi lf bo tod mr cs h6 h4',
            body008_drop31 '0' '0' de d1 c3 l3 d2 il hi lf bo tod mr cs h6 h4',
            body008_decomp ' ' ' ' de d1 c3 l3 d2 il hi lf bo tod mr cs]
  · intro b hb
    unfold build_008_kormarc_bk at hb
    by_cases hc : ¬ (de.length = 6 ∧ de.all Char.isDigit)
    · rw [if_pos hc] at hb; exact absurd hb (by simp)
    · rw [if_neg hc] at hb
      obtain ⟨h6, hdig⟩ := not_not.mp hc
      by_cases h4 : d1.length ≠ 4
      · rw [if_pos h4] at hb; exact absurd hb (by simp)
      · have h4' : d1.length = 4 := not_not.mp h4
        rw [if_neg h4] at hb
        have hl0 := length_body008 '0' '0' de d1 c3 l3 d2 il hi lf bo tod mr cs h6 h4'
        rw [if_neg (by simp [hl0])] at hb
        obtain rfl : body008 '0' '0' de d1 c3 l3 d2 il hi lf bo tod mr cs = b :=
          by simpa using hb
        have hd29 : (body008 '0' '0' de d1 c3 l3 d2 il hi lf bo tod mr cs).drop 29 =
            [ '0' ] ++ ([ '0' ] ++ back008 hi cs lf bo l3) := by
          rw [body008_decomp]
          exact List.drop_left' (front008_length de d1 c3 d2 il tod mr h6 h4')
        rw [hd29]
        rfl

/-- Witness for the hypothesis-bearing part of the C7 amended theorem. -/
theorem build_008_copies_agree_witness :
    ("250101s2025    ulk           000a  kor  ".toList.drop 29).take 2 = ['0', '0'] :=
  (build_008_copies_agree_except_29_30 "250101".toList "2025".toList
      "ulk".toList "kor".toList [] [] ['0'] [' '] [' '] "s".toList [' '] ['a']).2
    "250101s2025    ulk           000a  kor  ".toList rfl

/-- `build_049` from the unnamed source file: 049 holdings field. -/
def build_049 (reg_mark reg_no copy_symbol : List Char) : List Char :=
  let rm := pyStrip reg_mark
  let rn := pyStrip reg_no
  let cs := pyStrip copy_symbol
  if rm = [] ∧ rn = [] then []
  else
    let field := "=049  \\\\$I".toList ++ rm ++ rn
    if cs ≠ [] then field ++ ("$f".toList ++ cs) else field

/-- C9: `build_049` returns the empty string iff both
`reg_mark` and `reg_no` are blank after stripping; otherwise it returns
exactly `=049  \\$I` + stripped reg_mark + stripped reg_no, with `$f` +
stripped copy_symbol appended iff `copy_symbol` is non-blank. -/
theorem build_049_spec (reg_mark reg_no copy_symbol : List Char) :
    (build_049 reg_mark reg_no copy_symbol = [] ↔
      (pyStrip reg_mark = [] ∧ pyStrip reg_no = [])) ∧
    (¬ (pyStrip reg_mark = [] ∧ pyStrip reg_no = []) →
      build_049 reg_mark reg_no copy_symbol =
        "=049  \\\\$I".toList ++ pyStrip reg_mark ++ pyStrip reg_no ++
          (if pyStrip copy_symbol ≠ [] then "$f".toList ++ pyStrip copy_symbol else [])) := by
  constructor
  · constructor
    · intro h
      by_contra hne
      unfold build_049 at h
      rw [if_neg hne] at h
      split at h <;> simp_all
    · intro h
      unfold build_049
      rw [if_pos h]
  · intro h
    unfold build_049
    rw [if_neg h]
    split <;> simp [List.append_assoc]

/-- Witness for C9 at a concrete non-blank input. -/
theorem build_049_spec_witness :
    build_049 " EM".toList "12345 ".toList "TCH".toList =
      "=049  \\\\$I".toList ++ pyStrip " EM".toList ++ pyStrip "12345 ".toList ++
        (if pyStrip "TCH".toList ≠ [] then "$f".toList ++ pyStrip "TCH".toList else []) :=
  (build_049_spec " EM".toList "12345 ".toList "TCH".toList).2 (by decide)

/-- The effective country code of `patch_008_country_code`:
`(country_code or "xxu")[:3].ljust(3)`. -/
def cc3_of (country_code : List Char) : List Char :=
  let cc0 := if country_code = [] then "xxu".toList else country_code
  cc0.take 3 ++ List.replicate (3 - (cc0.take 3).length) ' '

theorem cc3_of_length (country_code : List Char) : (cc3_of country_code).length = 3 := by
  have h : ((if country_code = [] then "xxu".toList else country_code).take 3).length ≤ 3 := by
    simp [List.length_take]
  simp only [cc3_of, List.length_append, List.length_replicate]
  omega

/-- `body.ljust(40)` step of `patch_008_country_code`. -/
def ljust40 (body : List Char) : List Char :=
  if body.length < 40 then body ++ List.replicate (40 - body.length) ' ' else body

/-- `patch_008_country_code` from the unnamed source file. -/
def patch_008_country_code (mrk_008_line : List Char) (country_code : List Char) : List Char :=
  if mrk_008_line = [] ∨ ¬ listStartsWith "=008".toList mrk_008_line then mrk_008_line
  else
    mrk_008_line.take 6 ++
      ((ljust40 (mrk_008_line.drop 6)).take 15 ++
        (cc3_of country_code ++ (ljust40 (mrk_008_line.drop 6)).drop 18))

/-- C8 counterexample: with an empty `country_code`, body positions 15-17
become `xxu`, not the empty code space-padded to `"   "`. -/
theorem patch_008_country_code_empty_cc :
    ((patch_008_country_code
        "=008  0123456789012345678901234567890123456789".toList []).drop 21).take 3 =
      "xxu".toList ∧
    "xxu".toList ≠ "   ".toList :=
  ⟨by decide, by decide⟩

/-- C8 amended: lines not starting with `=008` are returned unchanged;
on a `=008` line with body (index 6 on) of at least 40 characters, only
body positions 15-17 change, set to the given country code — with `'xxu'`
substituted when it is empty — truncated/space-padded to 3 characters. -/
theorem patch_008_country_code_spec (line cc : List Char) :
    (¬ listStartsWith "=008".toList line = true →
      patch_008_country_code line cc = line) ∧
    (listStartsWith "=008".toList line = true → 40 ≤ (line.drop 6).length →
      patch_008_country_code line cc =
        line.take 6 ++
          ((line.drop 6).take 15 ++ (cc3_of cc ++ (line.drop 6).drop 18)) ∧
      (patch_008_country_code line cc).length = line.length ∧
      ((patch_008_country_code line cc).drop 21).take 3 = cc3_of cc) := by
  constructor
  · intro h
    unfold patch_008_country_code
    rw [if_pos (Or.inr h)]
  · intro hstart hlen
    have hne : ¬ (line = [] ∨ ¬ listStartsWith "=008".toList line) := by
      push_neg
      refine ⟨?_, hstart⟩
      intro h
      subst h
      simp [listStartsWith] at hstart
    have hlj : ljust40 (line.drop 6) = line.drop 6 := by
      unfold ljust40
      rw [if_neg (by omega)]
    have hout : patch_008_country_code line cc =
        line.take 6 ++
          ((line.drop 6).take 15 ++ (cc3_of cc ++ (line.drop 6).drop 18)) := by
      unfold patch_008_country_code
      rw [if_neg hne, hlj]
    have hld : (line.drop 6).length = line.length - 6 := List.length_drop 6 line
    have h6 : 6 ≤ line.length := by omega
    refine ⟨hout, ?_, ?_⟩
    · rw [hout]
      simp only [List.length_append, List.length_take, List.length_drop, cc3_of_length]
      omega
    · rw [hout]
      have htk : (line.take 6).length = 6 := by
        simp [List.length_take]
        omega
      have hshape : line.take 6 ++
            ((line.drop 6).take 15 ++ (cc3_of cc ++ (line.drop 6).drop 18)) =
          (line.take 6 ++ (line.drop 6).take 15) ++
            (cc3_of cc ++ (line.drop 6).drop 18) := by
        simp [List.append_assoc]
      rw [hshape]
      refine seg_of_append ?_ (cc3_of_length cc)
      simp only [List.length_append, htk, List.length_take]
      omega

/-- Witness for C8 on a concrete `=008` line. -/
theorem patch_008_country_code_spec_witness :
    patch_008_country_code
        "=008  0123456789012345678901234567890123456789".toList "ggk".toList =
      "=008  0123456789012345678901234567890123456789".toList.take 6 ++
        (("=008  0123456789012345678901234567890123456789".toList.drop 6).take 15 ++
          (cc3_of "ggk".toList ++
            ("=008  0123456789012345678901234567890123456789".toList.drop 6).drop 18)) :=
  ((patch_008_country_code_spec
      "=008  0123456789012345678901234567890123456789".toList "ggk".toList).2
    (by decide) (by decide)).1

/-- One attempt of the regex `(19|20)\d{2}` at the head of the string. -/
def year_match_at (l : List Char) : Option (List Char) :=
  match l with
  | a :: b :: c :: d :: _ =>
    if ((a = '1' ∧ b = '9') ∨ (a = '2' ∧ b = '0')) ∧ c.isDigit ∧ d.isDigit then
      some [a, b, c, d]
    else none
  | _ => none

/-- Leftmost match of `(19|20)\d{2}` (`re.search` scan). -/
def find_year : List Char → Option (List Char)
  | [] => none
  | c :: rest =>
    match year_match_at (c :: rest) with
    | some m => some m
    | none => find_year rest

/-- `extract_year_from_aladin_pubdate` from the unnamed source file. -/
def extract_year_from_aladin_pubdate (pubdate : List Char) : List Char :=
  (find_year pubdate).getD "19uu".toList

/-- `COUNTRY_FIXED` constant. -/
def COUNTRY_FIXED : List Char := "ulk".toList

/-- `LANG_FIXED` constant. -/
def LANG_FIXED : List Char := "kor".toList

/-- `KR_REGION_TO_CODE` dict in its insertion order. -/
def KR_REGION_TO_CODE : List (List Char × List Char) :=
  [("서울".toList, "ulk".toList), ("서울특별시".toList, "ulk".toList),
   ("경기".toList, "ggk".toList), ("경기도".toList, "ggk".toList),
   ("부산".toList, "bnk".toList), ("부산광역시".toList, "bnk".toList),
   ("대구".toList, "tgk".toList), ("대구광역시".toList, "tgk".toList),
   ("인천".toList, "ick".toList), ("인천광역시".toList, "ick".toList),
   ("광주".toList, "kjk".toList), ("광주광역시".toList, "kjk".toList),
   ("대전".toList, "tjk".toList), ("대전광역시".toList, "tjk".toList),
   ("울산".toList, "usk".toList), ("울산광역시".toList, "usk".toList),
   ("세종".toList, "sjk".toList), ("세종특별자치시".toList, "sjk".toList),
   ("강원".toList, "gak".toList), ("강원특별자치도".toList, "gak".toList),
   ("충북".toList, "hbk".toList), ("충청북도".toList, "hbk".toList),
   ("충남".toList, "hck".toList), ("충청남도".toList, "hck".toList),
   ("전북".toList, "jbk".toList), ("전라북도".toList, "jbk".toList),
   ("전남".toList, "jnk".toList), ("전라남도".toList, "jnk".toList),
   ("경북".toList, "gbk".toList), ("경상북도".toList, "gbk".toList),
   ("경남".toList, "gnk".toList), ("경상남도".toList, "gnk".toList),
   ("제주".toList, "jjk".toList), ("제주특별자치도".toList, "jjk".toList)]

/-- `guess_country3_from_place` from the unnamed source file. -/
def guess_country3_from_place (place : List Char) : List Char :=
  if place = [] then COUNTRY_FIXED
  else
    match KR_REGION_TO_CODE.find? (fun kv => containsSub kv.1 place) with
    | some kv => kv.2
    | none => COUNTRY_FIXED

/-- Case-lowered copy (Python `str.lower` / `re.IGNORECASE`, ASCII part). -/
def lowerList (l : List Char) : List Char := l.map Char.toLower

/-- Case-insensitive substring containment. -/
def containsCI (p text : List Char) : Bool := containsSub (lowerList p) (lowerList text)

/-- `re.search` of an alternation of literals with `re.I`: some literal
occurs case-insensitively. -/
def containsAnyCI (pats : List (List Char)) (text : List Char) : Bool :=
  pats.any (fun p => containsCI p text)

/-- `re.search` of an alternation of literals, case-sensitively. -/
def containsAnyCS (pats : List (List Char)) (text : List Char) : Bool :=
  pats.any (fun p => containsSub p text)

/-- Order-preserving dedup loop inside `detect_illus4`. -/
def dedupKeep (acc : List Char) : List Char → List Char
  | [] => acc
  | k :: rest => if acc.contains k then dedupKeep acc rest else dedupKeep (acc ++ [k]) rest

/-- `detect_illus4` from the unnamed source file. -/
def detect_illus4 (text : List Char) : List Char :=
  let keys : List Char :=
    (if containsAnyCI ["삽화".toList, "삽도".toList, "도해".toList, "일러스트".toList,
        "일러스트레이션".toList, "그림".toList, "illustration".toList] text then ['a'] else []) ++
    (if containsAnyCI ["도표".toList, "표".toList, "차트".toList, "그래프".toList,
        "chart".toList, "graph".toList] text then ['d'] else []) ++
    (if containsAnyCI ["사진".toList, "포토".toList, "화보".toList, "photo".toList,
        "photograph".toList, "컬러사진".toList, "칼라사진".toList] text then ['o'] else [])
  (dedupKeep [] keys).take 4

/-- `detect_index` from the unnamed source file. -/
def detect_index (text : List Char) : List Char :=
  if containsAnyCI ["색인".toList, "찾아보기".toList, "인명색인".toList,
      "사항색인".toList, "index".toList] text then ['1'] else ['0']

/-- `detect_lit_form` from the unnamed source file (`letters?` matches iff
`letter` occurs). -/
def detect_lit_form (title category extra_text : List Char) : List Char :=
  let blob := title ++ [' '] ++ category ++ [' '] ++ extra_text
  if containsAnyCI ["서간집".toList, "편지".toList, "서간문".toList, "letter".toList] blob
    then ['i']
  else if containsAnyCI ["기행".toList, "여행기".toList, "여행 에세이".toList, "일기".toList,
      "수기".toList, "diary".toList, "travel".toList] blob then ['m']
  else if containsAnyCI ["시집".toList, "산문시".toList, "poem".toList, "poetry".toList] blob
    then ['p']
  else if containsAnyCI ["소설".toList, "장편".toList, "중단편".toList, "novel".toList,
      "fiction".toList] blob then ['f']
  else if containsAnyCI ["에세이".toList, "수필".toList, "essay".toList] blob then ['e']
  else [' ']

/-- `detect_bio` from the unnamed source file (its third search has no
`re.I` flag). -/
def detect_bio (text : List Char) : List Char :=
  if containsAnyCI ["자서전".toList, "회고록".toList, "autobiograph".toList] text then ['a']
  else if containsAnyCI ["전기".toList, "평전".toList, "인물 평전".toList,
      "biograph".toList] text then ['b']
  else if containsAnyCS ["전기적".toList, "자전적".toList, "회고".toList, "회상".toList] text
    then ['d']
  else [' ']

/-- `build_008_from_isbn` from the unnamed source file.  `today` stands for
`datetime.datetime.now().strftime("%y%m%d")`, which the embedding takes as
a parameter. -/
def build_008_from_isbn (today : List Char)
    (isbn aladin_pubdate aladin_title aladin_category aladin_desc aladin_toc
     source_300_place override_country3 override_lang3 cataloging_src : List Char) :
    Except String (List Char) :=
  let date1 := extract_year_from_aladin_pubdate aladin_pubdate
  let country3 :=
    if override_country3 ≠ [] then override_country3
    else if source_300_place ≠ [] then guess_country3_from_place source_300_place
    else COUNTRY_FIXED
  let lang3 := if override_lang3 ≠ [] then override_lang3 else LANG_FIXED
  let bigtext := aladin_title ++ [' '] ++ aladin_desc ++ [' '] ++ aladin_toc
  let illus4 := detect_illus4 bigtext
  let has_index := detect_index bigtext
  let lit_form := detect_lit_form aladin_title aladin_category bigtext
  let bio := detect_bio bigtext
  build_008_kormarc_bk today date1 country3 lang3 [] illus4 has_index lit_form bio
    "s".toList [' '] cataloging_src

theorem find_year_spec (l m : List Char) (h : find_year l = some m) :
    m.length = 4 ∧ m.all Char.isDigit ∧
      (m.take 2 = "19".toList ∨ m.take 2 = "20".toList) := by
  induction l with
  | nil => simp [find_year] at h
  | cons c rest ih =>
    rw [find_year] at h
    rcases hm : year_match_at (c :: rest) with _ | m'
    · rw [hm] at h
      exact ih h
    · rw [hm] at h
      obtain rfl : m' = m := by simpa using h
      unfold year_match_at at hm
      rcases rest with _ | ⟨b, _ | ⟨c', _ | ⟨d, t⟩⟩⟩ <;> simp at hm
      rcases hm with ⟨⟨h19 | h20, hc, hd⟩, hm⟩
      · obtain ⟨rfl, rfl⟩ := h19
        subst hm
        simp [hc, hd]
      · obtain ⟨rfl, rfl⟩ := h20
        subst hm
        simp [hc, hd]

theorem extract_year_length (pd : List Char) :
    (extract_year_from_aladin_pubdate pd).length = 4 := by
  unfold extract_year_from_aladin_pubdate
  rcases h : find_year pd with _ | m
  · rfl
  · simpa using (find_year_spec pd m h).1

/-- C10: `build_008_from_isbn` never raises: `extract_year_from_aladin_pubdate`
always yields a length-4 string (a matched 19xx/20xx year or `19uu`), and
with the 6-digit YYMMDD `today` supplied by `strftime`, both ValueError
branches and the length-40 assertion in `build_008_kormarc_bk` pass. -/
theorem build_008_from_isbn_total (today isbn pd ti cat desc toc place oc3 ol3 csrc : List Char)
    (h6 : today.length = 6) (hdig : today.all Char.isDigit) :
    (extract_year_from_aladin_pubdate pd).length = 4 ∧
    (extract_year_from_aladin_pubdate pd = "19uu".toList ∨
      ((extract_year_from_aladin_pubdate pd).all Char.isDigit ∧
        ((extract_year_from_aladin_pubdate pd).take 2 = "19".toList ∨
         (extract_year_from_aladin_pubdate pd).take 2 = "20".toList))) ∧
    ∃ body, build_008_from_isbn today isbn pd ti cat desc toc place oc3 ol3 csrc = .ok body := by
  refine ⟨extract_year_length pd, ?_, ?_⟩
  · unfold extract_year_from_aladin_pubdate
    rcases h : find_year pd with _ | m
    · exact Or.inl rfl
    · right
      simp only [Option.getD_some]
      exact ⟨(find_year_spec pd m h).2.1, (find_year_spec pd m h).2.2⟩
  · unfold build_008_from_isbn
    have h4 : (extract_year_from_aladin_pubdate pd).length = 4 := extract_year_length pd
    unfold build_008_kormarc_bk
    rw [if_neg (by simp [h6, hdig]), if_neg (by simp [h4])]
    rw [if_neg (by simp [length_body008 _ _ _ _ _ _ _ _ _ _ _ _ _ _ h6 h4])]
    exact ⟨_, rfl⟩

/-- Witness for C10 at a concrete input. -/
theorem build_008_from_isbn_total_witness :
    (extract_year_from_aladin_pubdate "2024-03-05".toList).length = 4 ∧
    (extract_year_from_aladin_pubdate "2024-03-05".toList = "19uu".toList ∨
      ((extract_year_from_aladin_pubdate "2024-03-05".toList).all Char.isDigit ∧
        ((extract_year_from_aladin_pubdate "2024-03-05".toList).take 2 = "19".toList ∨
         (extract_year_from_aladin_pubdate "2024-03-05".toList).take 2 = "20".toList))) ∧
    ∃ body, build_008_from_isbn "250101".toList "9788900000000".toList "2024-03-05".toList
        [] [] [] [] [] [] [] ['a'] = .ok body :=
  build_008_from_isbn_total "250101".toList "9788900000000".toList "2024-03-05".toList
    [] [] [] [] [] [] [] ['a'] (by decide) (by decide)

/-- `str.split(sep)` keeping empty pieces. -/
def splitOnChar (sep : Char) : List Char → List (List Char)
  | [] => [[]]
  | c :: rest =>
    let r := splitOnChar sep rest
    if c = sep then [] :: r
    else
      match r with
      | p :: ps => (c :: p) :: ps
      | [] => [[c]]

/-- `re.split` on a character class, keeping empty pieces. -/
def splitOnPred (f : Char → Bool) : List Char → List (List Char)
  | [] => [[]]
  | c :: rest =>
    let r := splitOnPred f rest
    if f c then [] :: r
    else
      match r with
      | p :: ps => (c :: p) :: ps
      | [] => [[c]]

/-- `str.split()` with no argument: split on whitespace runs, dropping
empty pieces. -/
def pySplitWs (l : List Char) : List (List Char) :=
  (splitOnPred pyIsSpace l).filter (fun p => p ≠ [])

/-- `str.split(sep, 1)`: split at the first occurrence only. -/
def splitFirst (sep : Char) : List Char → Option (List Char × List Char)
  | [] => none
  | c :: rest =>
    if c = sep then some ([], rest)
    else (splitFirst sep rest).map (fun p => (c :: p.1, p.2))

/-- Scan for the closing paren of a lazy `\(.*?\)` group: content up to the
first `)`, failing on a newline (regex `.` does not match `\n`) or end. -/
def findClose : List Char → Option (List Char × List Char)
  | [] => none
  | c :: rest =>
    if c = ')' then some ([], rest)
    else if c = '\n' then none
    else (findClose rest).map (fun p => (c :: p.1, p.2))

theorem findClose_after_length (l : List Char) (p : List Char × List Char)
    (h : findClose l = some p) : p.2.length < l.length := by
  induction l generalizing p with
  | nil => simp [findClose] at h
  | cons c rest ih =>
    rw [findClose] at h
    split at h
    · obtain rfl : ([], rest) = p := by simpa using h
      simp
    · split at h
      · simp at h
      · rcases hq : findClose rest with _ | q
        · rw [hq] at h; simp at h
        · rw [hq] at h
          obtain rfl : (c :: q.1, q.2) = p := by simpa using h
          have := ih q hq
          simp
          omega

/-- `re.findall(r"\((.*?)\)", name)`: the contents of the lazily matched
paren groups, scanning left to right. -/
def findallParen : List Char → List (List Char)
  | [] => []
  | c :: rest =>
    if c = '(' then
      match h : findClose rest with
      | some p => p.1 :: findallParen p.2
      | none => findallParen rest
    else findallParen rest
termination_by l => l.length
decreasing_by
  · have := findClose_after_length rest p h
    simp
    omega
  · simp
  · simp

/-- `re.sub(r"\(.*?\)", "", name)`: the same scan, deleting the matched
groups. -/
def removeParenGroups : List Char → List Char
  | [] => []
  | c :: rest =>
    if c = '(' then
      match h : findClose rest with
      | some p => removeParenGroups p.2
      | none => '(' :: removeParenGroups rest
    else c :: removeParenGroups rest
termination_by l => l.length
decreasing_by
  · have := findClose_after_length rest p h
    simp
    omega
  · simp
  · simp

/-- The sentinel `'출판지 미상'` (publisher location unknown). -/
def unknownPlace : List Char := "출판지 미상".toList

/-- The `'예외 발생'` marker string. -/
def excPlace : List Char := "예외 발생".toList

/-- `normalize_publisher_name`'s `re.sub` scan: removes `\s`, lazy paren
groups, and the literals 주식회사/㈜/도서출판/출판사 (tried in that order,
as in the regex alternation). -/
def normalize_publisher_name_aux : List Char → List Char
  | [] => []
  | c :: rest =>
    if pyIsSpace c then normalize_publisher_name_aux rest
    else if c = '(' then
      match h : findClose rest with
      | some p => normalize_publisher_name_aux p.2
      | none => c :: normalize_publisher_name_aux rest
    else if listStartsWith "주식회사".toList (c :: rest) then
      normalize_publisher_name_aux (rest.drop 3)
    else if c = '㈜' then normalize_publisher_name_aux rest
    else if listStartsWith "도서출판".toList (c :: rest) then
      normalize_publisher_name_aux (rest.drop 3)
    else if listStartsWith "출판사".toList (c :: rest) then
      normalize_publisher_name_aux (rest.drop 2)
    else c :: normalize_publisher_name_aux rest
termination_by l => l.length
decreasing_by
  · simp
  · have := findClose_after_length rest p h
    simp
    omega
  · simp
  · have := List.length_drop 3 rest
    simp
    omega
  · simp
  · have := List.length_drop 3 rest
    simp
    omega
  · have := List.length_drop 2 rest
    simp
    omega
  · simp

/-- Case-lowering used by `.lower()` (ASCII). -/
def normalize_publisher_name (name : List Char) : List Char :=
  (normalize_publisher_name_aux name).map Char.toLower

/-- `split_publisher_aliases` (effective copy in 웹크롤링1.py and the
unnamed file).  Returns `none` for the `parts[0]` IndexError when the
bracket-free name contains `/` but every slash-separated piece strips to
empty. -/
def split_publisher_aliases (name : List Char) : Option (List Char × List (List Char)) :=
  let bracket_contents := findallParen name
  let aliases := (bracket_contents.map (fun content =>
    ((splitOnPred (fun c => c = ',' || c = '/') content).map pyStrip).filter
      (fun p => p ≠ []))).flatten
  let name_no_brackets := pyStrip (removeParenGroups name)
  if name_no_brackets.contains '/' then
    match ((splitOnChar '/' name_no_brackets).map pyStrip).filter (fun p => p ≠ []) with
    | [] => none
    | p0 :: rest => some (p0, aliases ++ rest)
  else some (name_no_brackets, aliases)

/-- `search_publisher_location_with_alias` (same logic in both files):
first spreadsheet row whose normalized 출판사명 equals the normalized
query, else the sentinel.  Debug-message accumulation is elided. -/
def search_publisher_location_with_alias (name : List Char)
    (publisher_data : List (List Char × List Char)) : List Char :=
  if name = [] then unknownPlace
  else
    match publisher_data.find? (fun row =>
        normalize_publisher_name row.1 == normalize_publisher_name name) with
    | some row => row.2
    | none => unknownPlace

/-- One `IM_*` sheet row split into `pub_part`/`imprint_part`
(`full_text.split("/", 1)` when a slash is present). -/
def imprint_entry (full_text : List Char) : List Char × Option (List Char) :=
  if full_text.contains '/' then
    match splitFirst '/' full_text with
    | some p => (pyStrip p.1, some (pyStrip p.2))
    | none => (pyStrip full_text, none)
  else (pyStrip full_text, none)

/-- `find_main_publisher_from_imprints` (same logic in both files): first
imprint row whose imprint part normalizes to the query's normal form; its
pub part is then looked up in the publisher sheet. -/
def find_main_publisher_from_imprints (rep_name : List Char)
    (imprint_data : List (List Char))
    (publisher_data : List (List Char × List Char)) : Option (List Char) :=
  let norm_rep := normalize_publisher_name rep_name
  match imprint_data.find? (fun ft =>
      match (imprint_entry ft).2 with
      | some imp => imp ≠ [] && (normalize_publisher_name imp == norm_rep)
      | none => false) with
  | some ft => some (search_publisher_location_with_alias (imprint_entry ft).1 publisher_data)
  | none => none

/-- Case-insensitive prefix test (`re.IGNORECASE` literal match). -/
def ciStartsWith (p l : List Char) : Bool := listStartsWith (lowerList p) (lowerList l)

/-- `re.sub` of an ordered alternation of literals, case-insensitively,
each replaced by a fixed string. -/
def subLiteralsCI (alts : List (List Char × List Char)) : List Char → List Char
  | [] => []
  | c :: rest =>
    match alts.find? (fun a => ciStartsWith a.1 (c :: rest)) with
    | some a => a.2 ++ subLiteralsCI alts (rest.drop (a.1.length - 1))
    | none => c :: subLiteralsCI alts rest
termination_by l => l.length
decreasing_by
  · have := List.length_drop (a.1.length - 1) rest
    simp
    omega
  · simp

/-- `normalize_stage2` from 웹크롤링1.py / the unnamed file. -/
def normalize_stage2 (name : List Char) : List Char :=
  let n1 := subLiteralsCI [("주니어".toList, []), ("JUNIOR".toList, []), ("어린이".toList, []),
    ("키즈".toList, []), ("북스".toList, []), ("아이세움".toList, []), ("프레스".toList, [])] name
  let n2 := subLiteralsCI [("springer".toList, "스프링거".toList)] n1
  let n3 := subLiteralsCI [("cambridge".toList, "케임브리지".toList)] n2
  let n4 := subLiteralsCI [("oxford".toList, "옥스포드".toList)] n3
  lowerList (pyStrip n4)

/-- `l.endswith(p)`. -/
def listEndsWith (p l : List Char) : Bool := listStartsWith p.reverse l.reverse

/-- The major-city list of `normalize_publisher_location_for_display`. -/
def major_cities : List (List Char) :=
  ["서울".toList, "인천".toList, "대전".toList, "광주".toList,
   "울산".toList, "대구".toList, "부산".toList, "세종".toList]

/-- `normalize_publisher_location_for_display` (unnamed-file copy).
`none` models the `parts[0]` IndexError on whitespace-only input. -/
def normalize_publisher_location_for_display (location_name : List Char) :
    Option (List Char) :=
  if location_name = [] ∨ location_name = unknownPlace ∨ location_name = excPlace then
    some location_name
  else
    let l := pyStrip location_name
    match major_cities.find? (fun city => containsSub city l) with
    | some _ => some (l.take 2)
    | none =>
      match pySplitWs l with
      | [] => none
      | [p0] => some (if listEndsWith "시".toList p0 then p0.dropLast else p0)
      | _ :: p1 :: _ => some (if listEndsWith "시".toList p1 then p1.dropLast else p1)

/-- Inner `normalize_region_for_code` of `get_country_code_by_region`. -/
def normalize_region_for_code (region : List Char) : List Char :=
  let r := pyStrip region
  if listStartsWith "전라".toList r || listStartsWith "충청".toList r ||
      listStartsWith "경상".toList r then
    r.take 1 ++ (if 2 < r.length then (r.drop 2).take 1 else [])
  else r.take 2

/-- `get_country_code_by_region` (unnamed-file copy): first 008-sheet row
whose normalized 발행국 matches; blank codes and misses give `'xxu'`.
The surrounding `try/except` has no raising step once rows are strings. -/
def get_country_code_by_region (region_name : List Char)
    (region_data : List (List Char × List Char)) : List Char :=
  let ni := normalize_region_for_code region_name
  match region_data.find? (fun row => normalize_region_for_code row.1 == ni) with
  | some row => if pyStrip row.2 = [] then "xxu".toList else pyStrip row.2
  | none => "xxu".toList

theorem listStartsWith_length (p l : List Char) (h : listStartsWith p l = true) :
    p.length ≤ l.length := by
  induction p generalizing l with
  | nil => simp
  | cons a ps ih =>
    cases l with
    | nil => simp [listStartsWith] at h
    | cons c cs =>
      simp only [listStartsWith, Bool.and_eq_true] at h
      have := ih cs h.2
      simp
      omega

theorem containsSub_length (p l : List Char) (h : containsSub p l = true) :
    p.length ≤ l.length := by
  induction l with
  | nil =>
    cases p with
    | nil => simp
    | cons a ps => simp [containsSub, listStartsWith] at h
  | cons c rest ih =>
    simp only [containsSub, Bool.or_eq_true] at h
    rcases h with h | h
    · exact listStartsWith_length p (c :: rest) h
    · have := ih h
      simp
      omega

/-- C5 counterexample: the lookup chain's own sentinel `'출판지 미상'` is
returned unchanged by `normalize_publisher_location_for_display` (6
characters, not 2), and `get_country_code_by_region` returns whatever the
matching sheet row stores, here a 2-character code, not a 3-character one. -/
theorem normalize_display_counterexample :
    normalize_publisher_location_for_display unknownPlace = some unknownPlace ∧
    unknownPlace.length ≠ 2 ∧
    get_country_code_by_region "서울".toList [("서울".toList, "ab".toList)] = "ab".toList ∧
    ("ab".toList).length ≠ 3 :=
  ⟨rfl, by decide, by decide, by decide⟩

/-- C5 amended: the display form is the input itself for empty/sentinel
inputs, a 2-character prefix when the stripped input contains a major-city
name, and otherwise the second (or only) whitespace token with one
trailing '시' dropped — of no fixed length (and an IndexError on
whitespace-only input); the country code is the first matching row's
stripped 발행국 부호 — 3 characters only when the sheet stores 3 — and
`'xxu'` when that is blank or no row matches. -/
theorem normalize_display_and_country_code_spec (loc : List Char)
    (rd : List (List Char × List Char)) :
    ((loc = [] ∨ loc = unknownPlace ∨ loc = excPlace) →
        normalize_publisher_location_for_display loc = some loc) ∧
    (¬ (loc = [] ∨ loc = unknownPlace ∨ loc = excPlace) →
      (∃ city ∈ major_cities, containsSub city (pyStrip loc) = true) →
      ∃ out, normalize_publisher_location_for_display loc = some out ∧ out.length = 2) ∧
    (¬ (loc = [] ∨ loc = unknownPlace ∨ loc = excPlace) →
      (∀ city ∈ major_cities, containsSub city (pyStrip loc) = false) →
        ((pySplitWs (pyStrip loc) = [] →
            normalize_publisher_location_for_display loc = none) ∧
         (∀ p0 p1 rest, pySplitWs (pyStrip loc) = p0 :: p1 :: rest →
            normalize_publisher_location_for_display loc =
              some (if listEndsWith "시".toList p1 then p1.dropLast else p1)) ∧
         (∀ p0, pySplitWs (pyStrip loc) = [p0] →
            normalize_publisher_location_for_display loc =
              some (if listEndsWith "시".toList p0 then p0.dropLast else p0)))) ∧
    (rd.find? (fun row =>
        normalize_region_for_code row.1 == normalize_region_for_code loc) = none →
      get_country_code_by_region loc rd = "xxu".toList) ∧
    (∀ row, rd.find? (fun row =>
        normalize_region_for_code row.1 == normalize_region_for_code loc) = some row →
      get_country_code_by_region loc rd =
        (if pyStrip row.2 = [] then "xxu".toList else pyStrip row.2)) := by
  refine ⟨?_, ?_, ?_, ?_, ?_⟩
  · intro h
    unfold normalize_publisher_location_for_display
    rw [if_pos h]
  · intro hne hcity
    have hs : (major_cities.find? (fun city => containsSub city (pyStrip loc))).isSome := by
      rw [List.find?_isSome]
      obtain ⟨city, hm, hc⟩ := hcity
      exact ⟨city, hm, hc⟩
    rcases hf : major_cities.find? (fun city => containsSub city (pyStrip loc)) with _ | city
    · rw [hf] at hs; simp at hs
    · have hcl : city.length = 2 := by
        have hmem := List.mem_of_find?_eq_some hf
        have : ∀ c ∈ major_cities, c.length = 2 := by decide
        exact this city hmem
      have hcc : containsSub city (pyStrip loc) = true := by
        simpa using List.find?_some hf
      have hlen : 2 ≤ (pyStrip loc).length := by
        have := containsSub_length city (pyStrip loc) hcc
        omega
      refine ⟨(pyStrip loc).take 2, ?_, ?_⟩
      · unfold normalize_publisher_location_for_display
        rw [if_neg hne]
        simp only [hf]
      · simp [List.length_take]
        omega
  · intro hne hnone
    have hf : major_cities.find? (fun city => containsSub city (pyStrip loc)) = none := by
      rw [List.find?_eq_none]
      intro c hc
      simp [hnone c hc]
    refine ⟨?_, ?_, ?_⟩
    · intro hsplit
      unfold normalize_publisher_location_for_display
      rw [if_neg hne]
      simp only [hf, hsplit]
    · intro p0 p1 rest hsplit
      unfold normalize_publisher_location_for_display
      rw [if_neg hne]
      simp only [hf, hsplit]
    · intro p0 hsplit
      unfold normalize_publisher_location_for_display
      rw [if_neg hne]
      simp only [hf, hsplit]
  · intro h
    unfold get_country_code_by_region
    simp only [h]
  · intro row h
    unfold get_country_code_by_region
    simp only [h]

/-- Witness for C5 on a concrete two-token location and a matching sheet row. -/
theorem normalize_display_spec_witness :
    normalize_publisher_location_for_display "경기도 파주시".toList = some "파주".toList ∧
    get_country_code_by_region "경기도 파주시".toList
        [("경기".toList, "ggk".toList)] = "ggk".toList := by
  constructor
  · have h := ((normalize_display_and_country_code_spec "경기도 파주시".toList
        [("경기".toList, "ggk".toList)]).2.2.1 (by decide) (by decide)).2.1
    exact h "경기도".toList "파주시".toList [] (by decide)
  · have h := (normalize_display_and_country_code_spec "경기도 파주시".toList
        [("경기".toList, "ggk".toList)]).2.2.2.2
    exact h ("경기".toList, "ggk".toList) (by decide)

/-- A scraped 문체부 table row: (등록구분, 출판사명, 주소, 상태). -/
def McstRow : Type := List Char × List Char × List Char × List Char

instance : DecidableEq McstRow := by
  unfold McstRow
  infer_instance

/-- `get_mcst_address` (same logic in both files): the HTTP/scrape outcome
enters as an `Except` parameter; any exception is caught and mapped to the
literal `'오류 발생'` with an empty result list.  Only rows with status
`'영업'` are kept; the address of the first is returned.  Debug messages
are elided. -/
def get_mcst_address (resp : Except String (List McstRow)) :
    List Char × List McstRow :=
  match resp with
  | .error _ => ("오류 발생".toList, [])
  | .ok rows =>
    let results := rows.filter (fun r => r.2.2.2 == "영업".toList)
    match results with
    | [] => ("미확인".toList, [])
    | r :: _ => (r.2.2.1, results)

/-- The dict returned by `build_pub_location_bundle` (`debug` elided). -/
structure PubBundle where
  place_raw : List Char
  place_display : List Char
  country_code : List Char
  resolved_publisher : List Char
  source : List Char
deriving DecidableEq

/-- The `except`-branch dict of `build_pub_location_bundle`. -/
def fallbackBundle (publisher_name_raw : List Char) : PubBundle :=
  ⟨unknownPlace, unknownPlace, "xxu".toList, publisher_name_raw, "ERROR".toList⟩

/-- The three sheets returned by `load_publisher_db`:
publisher rows (출판사명, 주소), region rows (발행국, 발행국 부호), imprint
column entries. -/
def SheetDB : Type :=
  List (List Char × List Char) × List (List Char × List Char) × List (List Char)

/-- `build_pub_location_bundle` from the unnamed source file.  External
steps enter as parameters: `load_resp` is the `load_publisher_db()` call
(its network failure is the raising step the `try` guards), `kpipa_full`
is the name scraped by `get_publisher_name_from_isbn_kpipa` (empty for
`None`; that helper catches its own exceptions), and `mcst_resp` feeds
`get_mcst_address`.  The two in-`try` raising steps modelled by `Option`
(`split_publisher_aliases`'s `parts[0]` and the display function's
`parts[...]`) likewise fall through to the `except` dict. -/
def bundle_resolved (publisher_name_raw rep_name : List Char) : List Char :=
  if rep_name ≠ [] then rep_name else pyStrip publisher_name_raw

/-- The KPIPA-search / imprint stage of `build_pub_location_bundle`:
first component is `place_raw` (`none` = Python `None`), second the
`source` tag so far. -/
def bundle_step2 (publisher_data : List (List Char × List Char))
    (imprint_data : List (List Char)) (publisher_name_raw rep_name : List Char) :
    Option (List Char) × List Char :=
  let resolved := bundle_resolved publisher_name_raw rep_name
  let place1 := search_publisher_location_with_alias resolved publisher_data
  if place1 = unknownPlace ∨ place1 = excPlace then
    match find_main_publisher_from_imprints resolved imprint_data publisher_data with
    | none => (none, "KPIPA_DB".toList)
    | some x => (some x, if x ≠ [] then "IMPRINT→KPIPA".toList else "KPIPA_DB".toList)
  else (some place1, "KPIPA_DB".toList)

/-- The MCST stage of `build_pub_location_bundle`. -/
def bundle_step3 (publisher_data : List (List Char × List Char))
    (imprint_data : List (List Char)) (mcst_resp : Except String (List McstRow))
    (publisher_name_raw rep_name : List Char) : Option (List Char) × List Char :=
  let s2 := bundle_step2 publisher_data imprint_data publisher_name_raw rep_name
  let bad2 : Bool :=
    match s2.1 with
    | none => true
    | some x => x = [] || x == unknownPlace || x == excPlace
  if bad2 then
    let m := get_mcst_address mcst_resp
    if m.1 ≠ "미확인".toList ∧ m.1 ≠ "오류 발생".toList then (some m.1, "MCST".toList)
    else s2
  else s2

/-- The final `place_raw`/`source` pair of `build_pub_location_bundle`. -/
def bundle_final (publisher_data : List (List Char × List Char))
    (imprint_data : List (List Char)) (mcst_resp : Except String (List McstRow))
    (publisher_name_raw rep_name : List Char) : List Char × List Char :=
  let s3 := bundle_step3 publisher_data imprint_data mcst_resp publisher_name_raw rep_name
  let bad3 : Bool :=
    match s3.1 with
    | none => true
    | some x => x = [] || x == unknownPlace || x == excPlace ||
        x == "미확인".toList || x == "오류 발생".toList
  if bad3 then (unknownPlace, "FALLBACK".toList) else ((s3.1).getD [], s3.2)

/-- Tail of the `try` body of `build_pub_location_bundle` past the
`split_publisher_aliases` call. -/
def bundle_core (publisher_data region_data : List (List Char × List Char))
    (imprint_data : List (List Char)) (mcst_resp : Except String (List McstRow))
    (publisher_name_raw rep_name : List Char) : PubBundle :=
  let final := bundle_final publisher_data imprint_data mcst_resp publisher_name_raw rep_name
  match normalize_publisher_location_for_display final.1 with
  | none => fallbackBundle publisher_name_raw
  | some disp =>
    ⟨final.1, disp, get_country_code_by_region final.1 region_data,
      bundle_resolved publisher_name_raw rep_name, final.2⟩

/-- `build_pub_location_bundle` proper: the `try` body with its raising
steps (`load_publisher_db`, the two IndexError sites) routed to the
`except` dict. -/
def build_pub_location_bundle (load_resp : Except String SheetDB)
    (kpipa_full : List Char) (mcst_resp : Except String (List McstRow))
    (publisher_name_raw : List Char) : PubBundle :=
  match load_resp with
  | .error _ => fallbackBundle publisher_name_raw
  | .ok (publisher_data, region_data, imprint_data) =>
    match split_publisher_aliases
        (if kpipa_full ≠ [] then kpipa_full else publisher_name_raw) with
    | none => fallbackBundle publisher_name_raw
    | some (rep_name, _aliases) =>
      bundle_core publisher_data region_data imprint_data mcst_resp
        publisher_name_raw rep_name

theorem bundle_step2_source (pd : List (List Char × List Char))
    (imp : List (List Char)) (raw rep : List Char) :
    (bundle_step2 pd imp raw rep).2 = "KPIPA_DB".toList ∨
    (bundle_step2 pd imp raw rep).2 = "IMPRINT→KPIPA".toList := by
  simp only [bundle_step2]
  split
  · split
    · exact Or.inl rfl
    · split
      · exact Or.inr rfl
      · exact Or.inl rfl
  · exact Or.inl rfl

theorem bundle_step3_source (pd : List (List Char × List Char))
    (imp : List (List Char)) (mcst : Except String (List McstRow)) (raw rep : List Char) :
    (bundle_step3 pd imp mcst raw rep).2 = "KPIPA_DB".toList ∨
    (bundle_step3 pd imp mcst raw rep).2 = "IMPRINT→KPIPA".toList ∨
    (bundle_step3 pd imp mcst raw rep).2 = "MCST".toList := by
  simp only [bundle_step3]
  split
  · split
    · exact Or.inr (Or.inr rfl)
    · rcases bundle_step2_source pd imp raw rep with h | h
      · exact Or.inl h
      · exact Or.inr (Or.inl h)
  · rcases bundle_step2_source pd imp raw rep with h | h
    · exact Or.inl h
    · exact Or.inr (Or.inl h)

theorem bundle_final_source (pd : List (List Char × List Char))
    (imp : List (List Char)) (mcst : Except String (List McstRow)) (raw rep : List Char) :
    (bundle_final pd imp mcst raw rep).2 ≠ "ERROR".toList := by
  simp only [bundle_final]
  split
  · decide
  · rcases bundle_step3_source pd imp mcst raw rep with h | h | h <;>
      simp [h] <;> decide

/-- C6: `build_pub_location_bundle` never propagates an exception: every
raising step inside the `try` (the spreadsheet load, the two IndexError
sites) lands on the `except` dict with place `'출판지 미상'`, display
`'출판지 미상'`, country `'xxu'`, source `'ERROR'`; conversely any output
tagged `'ERROR'` is exactly that dict; and `get_mcst_address` maps every
exception of its own to the literal `'오류 발생'` with an empty list. -/
theorem build_pub_location_bundle_no_raise (load : Except String SheetDB)
    (kf : List Char) (mcst : Except String (List McstRow)) (raw : List Char) :
    (∀ e, load = .error e →
      build_pub_location_bundle load kf mcst raw = fallbackBundle raw) ∧
    (∀ db : SheetDB, load = .ok db →
      split_publisher_aliases (if kf ≠ [] then kf else raw) = none →
      build_pub_location_bundle load kf mcst raw = fallbackBundle raw) ∧
    ((build_pub_location_bundle load kf mcst raw).source = "ERROR".toList →
      build_pub_location_bundle load kf mcst raw = fallbackBundle raw) ∧
    (∀ e, get_mcst_address (.error e) = ("오류 발생".toList, [])) := by
  refine ⟨?_, ?_, ?_, fun e => rfl⟩
  · intro e he
    subst he
    rfl
  · intro db hdb hsplit
    subst hdb
    obtain ⟨pd, rd, imp⟩ := db
    unfold build_pub_location_bundle
    simp only [hsplit]
  · intro hsrc
    rcases load with e | db
    · rfl
    · obtain ⟨pd, rd, imp⟩ := db
      unfold build_pub_location_bundle at hsrc ⊢
      rcases hsplit : split_publisher_aliases (if kf ≠ [] then kf else raw) with _ | pair
      · simp only [hsplit]
      · simp only [hsplit] at hsrc ⊢
        obtain ⟨rep, aliases⟩ := pair
        unfold bundle_core at hsrc ⊢
        rcases hdisp : normalize_publisher_location_for_display
            (bundle_final pd imp mcst raw rep).1 with _ | disp
        · simp only [hdisp]
        · simp only [hdisp] at hsrc
          exact absurd hsrc (bundle_final_source pd imp mcst raw rep)

/-- Witness for C6: a failing spreadsheet load yields exactly the fallback
dict, and an MCST exception yields the `'오류 발생'` pair. -/
theorem build_pub_location_bundle_no_raise_witness :
    build_pub_location_bundle (.error "network down") "밝은세상".toList
        (.error "timeout") "밝은세상".toList = fallbackBundle "밝은세상".toList ∧
    get_mcst_address (.error "timeout") = ("오류 발생".toList, []) :=
  ⟨(build_pub_location_bundle_no_raise (.error "network down") "밝은세상".toList
      (.error "timeout") "밝은세상".toList).1 "network down" rfl,
   (build_pub_location_bundle_no_raise (.error "network down") "밝은세상".toList
      (.error "timeout") "밝은세상".toList).2.2.2 "timeout"⟩

/-- `publisher_norm` after the KPIPA step of the 웹크롤링1.py per-ISBN
loop: the KPIPA-normalized name when the page search succeeded (truthy),
else the Aladin `publisher` field. -/
def resolved_publisher_norm (kpipa_norm publisher_api : List Char) : List Char :=
  if kpipa_norm ≠ [] then kpipa_norm else publisher_api

/-- Stage 2 of the loop: `location_raw` after the KPIPA-DB search — run
only when the KPIPA page search succeeded, else the sentinel. -/
def stage1_result (kpipa_norm : List Char)
    (publisher_data : List (List Char × List Char)) : List Char :=
  if kpipa_norm ≠ [] then
    search_publisher_location_with_alias kpipa_norm publisher_data
  else unknownPlace

/-- The `for alias in aliases` loop of stage 3: successive searches,
breaking at the first non-sentinel hit. -/
def aliasLoop (aliases : List (List Char))
    (publisher_data : List (List Char × List Char)) : List Char :=
  match aliases with
  | [] => unknownPlace
  | a :: rest =>
    let l := search_publisher_location_with_alias a publisher_data
    if l ≠ unknownPlace then l else aliasLoop rest publisher_data

/-- `if main_pub: location_raw = main_pub` after an imprint lookup. -/
def imprint_or (fallback rep : List Char) (imprint_data : List (List Char))
    (publisher_data : List (List Char × List Char)) : List Char :=
  match find_main_publisher_from_imprints rep imprint_data publisher_data with
  | some x => if x ≠ [] then x else fallback
  | none => fallback

/-- Stage 3 as a first-match: representative name, then each alias. -/
def stage2_find (rep : List Char) (aliases : List (List Char))
    (publisher_data : List (List Char × List Char)) : List Char :=
  ((((rep :: aliases).map
      (fun a => search_publisher_location_with_alias a publisher_data)).find?
        (fun l => !(l == unknownPlace))).getD unknownPlace)

/-- Stage 4 (IM sheet) outcome. -/
def stage3_result (rep : List Char) (imprint_data : List (List Char))
    (publisher_data : List (List Char × List Char)) : List Char :=
  imprint_or unknownPlace rep imprint_data publisher_data

/-- Stage 5 (second-stage normalization, KPIPA DB then IM sheet) outcome. -/
def stage4_result (pn : List Char) (imprint_data : List (List Char))
    (publisher_data : List (List Char × List Char)) : List Char :=
  let locB := search_publisher_location_with_alias (normalize_stage2 pn) publisher_data
  if locB ≠ unknownPlace then locB
  else imprint_or locB (normalize_stage2 pn) imprint_data publisher_data

/-- Stage 6 (MCST) fallback value. -/
def stage5_result (mcst : List Char × List McstRow) : List Char :=
  match mcst.2 with
  | r :: _ => r.2.2.1
  | [] => mcst.1

/-- The 웹크롤링1.py per-ISBN `location_raw` pipeline (steps 2-6 of the
loop body), with the KPIPA page outcome and the MCST response as
parameters.  `none` models the uncaught IndexError inside
`split_publisher_aliases`. -/
def location_pipeline (kpipa_norm publisher_api : List Char)
    (publisher_data : List (List Char × List Char)) (imprint_data : List (List Char))
    (mcst_resp : Except String (List McstRow)) : Option (List Char) :=
  let pn := resolved_publisher_norm kpipa_norm publisher_api
  let loc1 := stage1_result kpipa_norm publisher_data
  let mcst := get_mcst_address mcst_resp
  if loc1 ≠ unknownPlace then some loc1
  else
    match split_publisher_aliases pn with
    | none => none
    | some (rep, aliases) =>
      let locA := search_publisher_location_with_alias rep publisher_data
      let loc2 := if locA ≠ unknownPlace then locA else aliasLoop aliases publisher_data
      let loc3 := if loc2 ≠ unknownPlace then loc2
        else imprint_or loc2 rep imprint_data publisher_data
      let loc4 := if loc3 ≠ unknownPlace then loc3
        else
          let locB := search_publisher_location_with_alias (normalize_stage2 pn) publisher_data
          if locB ≠ unknownPlace then locB
          else imprint_or locB (normalize_stage2 pn) imprint_data publisher_data
      some (if loc4 ≠ unknownPlace then loc4 else stage5_result mcst)

theorem aliasLoop_eq_find (aliases : List (List Char))
    (pd : List (List Char × List Char)) :
    aliasLoop aliases pd =
      (((aliases.map (fun a => search_publisher_location_with_alias a pd)).find?
        (fun l => !(l == unknownPlace))).getD unknownPlace) := by
  induction aliases with
  | nil => rfl
  | cons a rest ih =>
    simp only [aliasLoop, List.map_cons, List.find?]
    by_cases h : search_publisher_location_with_alias a pd = unknownPlace
    · simp [h, ih]
    · have hb : (search_publisher_location_with_alias a pd == unknownPlace) = false :=
        beq_eq_false_iff_ne.mpr h
      simp [h, hb]

theorem stage2_block_eq (rep : List Char) (aliases : List (List Char))
    (pd : List (List Char × List Char)) :
    (if search_publisher_location_with_alias rep pd ≠ unknownPlace then
        search_publisher_location_with_alias rep pd
      else aliasLoop aliases pd) = stage2_find rep aliases pd := by
  simp only [stage2_find, List.map_cons, List.find?]
  by_cases h : search_publisher_location_with_alias rep pd = unknownPlace
  · simp [h, aliasLoop_eq_find]
  · have hb : (search_publisher_location_with_alias rep pd == unknownPlace) = false :=
      beq_eq_false_iff_ne.mpr h
    simp [h, hb]

/-- C2: the 웹크롤링1.py publisher-location lookup is a sequential
waterfall: KPIPA-derived name against the publisher sheet, then the
first-stage-normalized representative name and its aliases, then the IM
imprint sheet, then the second-stage-normalized name against the publisher
sheet and imprint sheet; each later stage counts only when every earlier
stage returned `'출판지 미상'`, the first non-sentinel value is the
result, and the MCST registry supplies the value when all stages returned
the sentinel. -/
theorem location_pipeline_waterfall (kp api : List Char)
    (pd : List (List Char × List Char)) (imp : List (List Char))
    (mcst_resp : Except String (List McstRow)) :
    (stage1_result kp pd ≠ unknownPlace →
      location_pipeline kp api pd imp mcst_resp = some (stage1_result kp pd)) ∧
    (stage1_result kp pd = unknownPlace →
      split_publisher_aliases (resolved_publisher_norm kp api) = none →
      location_pipeline kp api pd imp mcst_resp = none) ∧
    (∀ rep aliases, stage1_result kp pd = unknownPlace →
      split_publisher_aliases (resolved_publisher_norm kp api) = some (rep, aliases) →
      location_pipeline kp api pd imp mcst_resp =
        some ((([stage1_result kp pd, stage2_find rep aliases pd,
                 stage3_result rep imp pd,
                 stage4_result (resolved_publisher_norm kp api) imp pd].find?
                  (fun l => !(l == unknownPlace))).getD
                (stage5_result (get_mcst_address mcst_resp))))) := by
  refine ⟨?_, ?_, ?_⟩
  · intro h1
    simp only [location_pipeline]
    rw [if_pos h1]
  · intro h1 hsplit
    simp only [location_pipeline]
    rw [if_neg (by simp [h1])]
    simp only [hsplit]
  · intro rep aliases h1 hsplit
    simp only [location_pipeline]
    rw [if_neg (by simp [h1])]
    simp only [hsplit]
    rw [stage2_block_eq rep aliases pd]
    have h1b : (stage1_result kp pd == unknownPlace) = true := by simp [h1]
    have hs4 : (if search_publisher_location_with_alias
          (normalize_stage2 (resolved_publisher_norm kp api)) pd ≠ unknownPlace then
        search_publisher_location_with_alias
          (normalize_stage2 (resolved_publisher_norm kp api)) pd
      else imprint_or
        (search_publisher_location_with_alias
          (normalize_stage2 (resolved_publisher_norm kp api)) pd)
        (normalize_stage2 (resolved_publisher_norm kp api)) imp pd) =
        stage4_result (resolved_publisher_norm kp api) imp pd := rfl
    rw [hs4]
    by_cases h2 : stage2_find rep aliases pd = unknownPlace
    · have h3eq : imprint_or (stage2_find rep aliases pd) rep imp pd =
          stage3_result rep imp pd := by
        rw [h2]; rfl
      have h3u : imprint_or unknownPlace rep imp pd = stage3_result rep imp pd := rfl
      by_cases h3 : stage3_result rep imp pd = unknownPlace
      · by_cases h4 : stage4_result (resolved_publisher_norm kp api) imp pd = unknownPlace
        · simp [List.find?, h1b, h1, h2, h3eq, h3u, h3, h4]
        · have h4b : (stage4_result (resolved_publisher_norm kp api) imp pd ==
              unknownPlace) = false := beq_eq_false_iff_ne.mpr h4
          simp [List.find?, h1b, h1, h2, h3eq, h3u, h3, h4, h4b]
      · have h3b : (stage3_result rep imp pd == unknownPlace) = false :=
          beq_eq_false_iff_ne.mpr h3
        simp [List.find?, h1b, h1, h2, h3eq, h3u, h3, h3b]
    · have h2b : (stage2_find rep aliases pd == unknownPlace) = false :=
        beq_eq_false_iff_ne.mpr h2
      simp [List.find?, h1b, h1, h2, h2b]

/-- Witness for C2: a KPIPA-stage hit short-circuits the waterfall. -/
theorem location_pipeline_waterfall_witness :
    location_pipeline "a".toList [] [("a".toList, "b".toList)] [] (.ok []) =
      some (stage1_result "a".toList [("a".toList, "b".toList)]) :=
  (location_pipeline_waterfall "a".toList [] [("a".toList, "b".toList)] [] (.ok [])).1
    (by simp [stage1_result, search_publisher_location_with_alias,
      normalize_publisher_name, normalize_publisher_name_aux, pyIsSpace,
      listStartsWith, lowerList, unknownPlace, List.find?])

/-- JSON values as stored in the `name_cache` table: the Python objects
`json.dumps` accepts, with numbers restricted to ints (the cached name
bundles hold only strings, lists and dicts). -/
inductive Json where
  | null : Json
  | bool (b : Bool) : Json
  | num (n : Int) : Json
  | str (s : List Char) : Json
  | arr (xs : List Json) : Json
  | obj (fields : List (List Char × Json)) : Json

mutual
/-- `_jsonify` restricted to JSON-serializable values (no `set`s): the
dict/list recursion of the source, which is then the identity. -/
def jsonify : Json → Json
  | .obj fields => .obj (jsonifyFields fields)
  | .arr xs => .arr (jsonifyList xs)
  | j => j

def jsonifyList : List Json → List Json
  | [] => []
  | x :: rest => jsonify x :: jsonifyList rest

def jsonifyFields : List (List Char × Json) → List (List Char × Json)
  | [] => []
  | kv :: rest => (kv.1, jsonify kv.2) :: jsonifyFields rest
end

/-- `'0' + n` digit character. -/
def digitChar (n : Nat) : Char := Char.ofNat (48 + n)

/-- Decimal representation of a natural number (`str(n)`). -/
def natRepr (n : Nat) : List Char :=
  if h : n < 10 then [digitChar n]
  else natRepr (n / 10) ++ [digitChar (n % 10)]
termination_by n
decreasing_by
  omega

/-- Decimal representation of an integer (`str(n)` / JSON int). -/
def intRepr : Int → List Char
  | .ofNat m => natRepr m
  | .negSucc m => '-' :: natRepr (m + 1)

/-- Lowercase hex digit. -/
def hexDigitChar (n : Nat) : Char :=
  if n < 10 then Char.ofNat (48 + n) else Char.ofNat (97 + (n - 10))

/-- `json.dumps` escaping of one character (`ensure_ascii=False`): `"`,
`\`, the C escapes, `\u00XX` for other control characters, all else raw. -/
def escapeChar (c : Char) : List Char :=
  if c = '"' then ['\\', '"']
  else if c = '\\' then ['\\', '\\']
  else if c = '\n' then ['\\', 'n']
  else if c = '\t' then ['\\', 't']
  else if c = '\r' then ['\\', 'r']
  else if c = '\x08' then ['\\', 'b']
  else if c = '\x0c' then ['\\', 'f']
  else if c.toNat < 32 then
    ['\\', 'u', '0', '0', hexDigitChar (c.toNat / 16), hexDigitChar (c.toNat % 16)]
  else [c]

def escapeStr (s : List Char) : List Char := (s.map escapeChar).flatten

mutual
/-- `json.dumps(..., ensure_ascii=False)` with the default `", "`/`": "`
separators. -/
def jsonEncode : Json → List Char
  | .null => "null".toList
  | .bool true => "true".toList
  | .bool false => "false".toList
  | .num n => intRepr n
  | .str s => '"' :: (escapeStr s ++ ['"'])
  | .arr xs => '[' :: (encodeItems xs ++ [']'])
  | .obj fs => '\x7b' :: (encodeFields fs ++ ['\x7d'])

def encodeItems : List Json → List Char
  | [] => []
  | [x] => jsonEncode x
  | x :: y :: rest => jsonEncode x ++ (',' :: ' ' :: encodeItems (y :: rest))

def encodeFields : List (List Char × Json) → List Char
  | [] => []
  | [kv] => '"' :: (escapeStr kv.1 ++ ('"' :: ':' :: ' ' :: jsonEncode kv.2))
  | kv :: f :: rest =>
    ('"' :: (escapeStr kv.1 ++ ('"' :: ':' :: ' ' :: jsonEncode kv.2))) ++
      (',' :: ' ' :: encodeFields (f :: rest))
end

/-- One `"key": value` pair as emitted by `json.dumps`. -/
def encodeKV (k : List Char) (v : Json) : List Char :=
  '"' :: (escapeStr k ++ ('"' :: ':' :: ' ' :: jsonEncode v))

/-- JSON whitespace accepted by `json.loads`. -/
def jsonWs (c : Char) : Bool := c = ' ' || c = '\t' || c = '\n' || c = '\r'

def skipWs : List Char → List Char
  | [] => []
  | c :: rest => if jsonWs c then skipWs rest else c :: rest

/-- One hex digit of a `\uXXXX` escape. -/
def parseHexDigit (c : Char) : Option Nat :=
  if 48 ≤ c.toNat ∧ c.toNat ≤ 57 then some (c.toNat - 48)
  else if 97 ≤ c.toNat ∧ c.toNat ≤ 102 then some (c.toNat - 87)
  else if 65 ≤ c.toNat ∧ c.toNat ≤ 70 then some (c.toNat - 55)
  else none

/-- The single-character JSON escapes. -/
def unescapeChar (e : Char) : Option Char :=
  if e = '"' then some '"'
  else if e = '\\' then some '\\'
  else if e = '/' then some '/'
  else if e = 'n' then some '\n'
  else if e = 't' then some '\t'
  else if e = 'r' then some '\r'
  else if e = 'b' then some '\x08'
  else if e = 'f' then some '\x0c'
  else none

/-- `json.loads` string-literal body (after the opening quote): strict
mode, raw control characters rejected; surrogate pairs are out of scope
(the encoder only emits `\u00XX`). -/
def parseStringBody : List Char → Option (List Char × List Char)
  | [] => none
  | c :: rest =>
    if c = '"' then some ([], rest)
    else if c = '\\' then
      match rest with
      | [] => none
      | e :: rest2 =>
        if e = 'u' then
          match rest2 with
          | h1 :: h2 :: h3 :: h4 :: rest3 =>
            match parseHexDigit h1, parseHexDigit h2, parseHexDigit h3, parseHexDigit h4 with
            | some a, some b, some c3, some d =>
              (parseStringBody rest3).map (fun p =>
                (Char.ofNat (((a * 16 + b) * 16 + c3) * 16 + d) :: p.1, p.2))
            | _, _, _, _ => none
          | _ => none
        else
          match unescapeChar e with
          | some u => (parseStringBody rest2).map (fun p => (u :: p.1, p.2))
          | none => none
    else if c.toNat < 32 then none
    else (parseStringBody rest).map (fun p => (c :: p.1, p.2))

/-- Longest digit prefix. -/
def takeDigits : List Char → List Char × List Char
  | [] => ([], [])
  | c :: rest =>
    if c.isDigit then
      let p := takeDigits rest
      (c :: p.1, p.2)
    else ([], c :: rest)

def digitsToNat (ds : List Char) : Nat :=
  ds.foldl (fun acc c => acc * 10 + (c.toNat - 48)) 0

/-- The unsigned integer part of a JSON number: digits without a leading
zero, not followed by a fraction or exponent (floats are out of scope,
the parser rejects them). -/
def parseNatPart (l : List Char) : Option (Nat × List Char) :=
  let p := takeDigits l
  if p.1 = [] then none
  else if p.1.head? = some '0' ∧ 1 < p.1.length then none
  else
    match p.2 with
    | c :: _ => if c = '.' ∨ c = 'e' ∨ c = 'E' then none else some (digitsToNat p.1, p.2)
    | [] => some (digitsToNat p.1, [])

def parseNum (l : List Char) : Option (Json × List Char) :=
  match l with
  | [] => none
  | c :: rest =>
    if c = '-' then (parseNatPart rest).map (fun p => (Json.num (-(p.1 : Int)), p.2))
    else (parseNatPart (c :: rest)).map (fun p => (Json.num ((p.1 : Int)), p.2))

mutual
/-- `json.loads` value parser (recursive descent, fuel-indexed). -/
def parseValue : Nat → List Char → Option (Json × List Char)
  | 0, _ => none
  | fuel + 1, l =>
    let l1 := skipWs l
    if listStartsWith "null".toList l1 then some (.null, l1.drop 4)
    else if listStartsWith "true".toList l1 then some (.bool true, l1.drop 4)
    else if listStartsWith "false".toList l1 then some (.bool false, l1.drop 5)
    else
      match l1 with
      | [] => none
      | c :: rest =>
        if c = '"' then (parseStringBody rest).map (fun p => (Json.str p.1, p.2))
        else if c = '[' then
          match skipWs rest with
          | [] => none
          | d :: r2 =>
            if d = ']' then some (.arr [], r2)
            else (parseItems fuel (d :: r2)).map (fun p => (Json.arr p.1, p.2))
        else if c = '\x7b' then
          match skipWs rest with
          | [] => none
          | d :: r2 =>
            if d = '\x7d' then some (.obj [], r2)
            else (parseFields fuel (d :: r2)).map (fun p => (Json.obj p.1, p.2))
        else parseNum (c :: rest)

/-- Comma-separated values up to the closing `]`. -/
def parseItems : Nat → List Char → Option (List Json × List Char)
  | 0, _ => none
  | fuel + 1, l =>
    match parseValue fuel l with
    | none => none
    | some (v, r) =>
      match skipWs r with
      | [] => none
      | c :: r2 =>
        if c = ',' then (parseItems fuel r2).map (fun p => (v :: p.1, p.2))
        else if c = ']' then some ([v], r2)
        else none

/-- Comma-separated `"key": value` pairs up to the closing brace. -/
def parseFields : Nat → List Char → Option (List (List Char × Json) × List Char)
  | 0, _ => none
  | fuel + 1, l =>
    match l with
    | [] => none
    | c :: rest =>
      if c = '"' then
        match parseStringBody rest with
        | none => none
        | some (k, r2) =>
          match skipWs r2 with
          | [] => none
          | d :: r3 =>
            if d = ':' then
              match parseValue fuel r3 with
              | none => none
              | some (v, r4) =>
                match skipWs r4 with
                | [] => none
                | e :: r5 =>
                  if e = ',' then
                    (parseFields fuel (skipWs r5)).map (fun p => ((k, v) :: p.1, p.2))
                  else if e = '\x7d' then some ([(k, v)], r5)
                  else none
            else none
      else none
end

/-- `json.loads` on a whole document: the value must consume the input up
to trailing whitespace. -/
def jsonLoads (l : List Char) : Option Json :=
  match parseValue (l.length + 1) l with
  | some (j, rest) => if skipWs rest = [] then some j else none
  | none => none

theorem digitChar_isDigit (d : Nat) (h : d < 10) : (digitChar d).isDigit = true := by
  interval_cases d <;> decide

theorem digitChar_toNat (d : Nat) (h : d < 10) : (digitChar d).toNat = 48 + d := by
  interval_cases d <;> decide

theorem natRepr_ne_nil (n : Nat) : natRepr n ≠ [] := by
  rw [natRepr]
  split <;> simp

theorem natRepr_digits (n : Nat) : ∀ c ∈ natRepr n, c.isDigit = true := by
  induction n using Nat.strong_induction_on with
  | _ n ih =>
    rw [natRepr]
    split
    · intro c hc
      have hcd := List.mem_singleton.mp hc
      subst hcd
      exact digitChar_isDigit n (by omega)
    · intro c hc
      rcases List.mem_append.mp hc with hc | hc
      · exact ih (n / 10) (by omega) c hc
      · have hcd := List.mem_singleton.mp hc
        subst hcd
        exact digitChar_isDigit (n % 10) (by omega)

theorem digitsToNat_append_singleton (a : List Char) (d : Char) :
    digitsToNat (a ++ [d]) = 10 * digitsToNat a + (d.toNat - 48) := by
  simp [digitsToNat, List.foldl_append]
  omega

theorem digitsToNat_natRepr (n : Nat) : digitsToNat (natRepr n) = n := by
  induction n using Nat.strong_induction_on with
  | _ n ih =>
    rw [natRepr]
    split
    · rename_i h
      simp [digitsToNat, digitChar_toNat n h]
    · rename_i h
      rw [digitsToNat_append_singleton, ih (n / 10) (by omega),
        digitChar_toNat (n % 10) (by omega)]
      omega

theorem natRepr_head_ne_zero (n : Nat) (h1 : 1 ≤ n) : (natRepr n).head? ≠ some '0' := by
  induction n using Nat.strong_induction_on with
  | _ n ih =>
    rw [natRepr]
    split
    · rename_i h
      intro hc
      have : digitChar n = '0' := by simpa using hc
      have hn : n = 0 := by
        have := congrArg Char.toNat this
        rw [digitChar_toNat n h] at this
        simp at this
        omega
      omega
    · rename_i h
      obtain ⟨c, t, hct⟩ : ∃ c t, natRepr (n / 10) = c :: t := by
        rcases hq : natRepr (n / 10) with _ | ⟨c, t⟩
        · exact absurd hq (natRepr_ne_nil (n / 10))
        · exact ⟨c, t, rfl⟩
      rw [hct]
      simp only [List.cons_append, List.head?_cons]
      have := ih (n / 10) (by omega) (by omega)
      rw [hct] at this
      simpa using this

theorem takeDigits_append (ds rest : List Char) (hd : ∀ c ∈ ds, c.isDigit = true)
    (hb : rest = [] ∨ ∃ c t, rest = c :: t ∧ c.isDigit = false) :
    takeDigits (ds ++ rest) = (ds, rest) := by
  induction ds with
  | nil =>
    rcases hb with rfl | ⟨c, t, rfl, hc⟩
    · rfl
    · simp [takeDigits, hc]
  | cons d ds ih =>
    have hdd : d.isDigit = true := hd d (by simp)
    simp only [List.cons_append, takeDigits, hdd, if_pos]
    rw [List.append_eq, ih (fun c hc => hd c (by simp [hc]))]

theorem parseNatPart_natRepr (n : Nat) (rest : List Char)
    (hb : rest = [] ∨ ∃ c t, rest = c :: t ∧ c.isDigit = false ∧ c ≠ '.' ∧ c ≠ 'e' ∧ c ≠ 'E') :
    parseNatPart (natRepr n ++ rest) = some (n, rest) := by
  have htake : takeDigits (natRepr n ++ rest) = (natRepr n, rest) := by
    refine takeDigits_append (natRepr n) rest (natRepr_digits n) ?_
    rcases hb with rfl | ⟨c, t, rfl, hc, _⟩
    · exact Or.inl rfl
    · exact Or.inr ⟨c, t, rfl, hc⟩
  unfold parseNatPart
  rw [htake]
  simp only
  rw [if_neg (by simpa using natRepr_ne_nil n)]
  have hlead : ¬ ((natRepr n).head? = some '0' ∧ 1 < (natRepr n).length) := by
    rintro ⟨hz, hlen⟩
    by_cases h1 : 1 ≤ n
    · exact natRepr_head_ne_zero n h1 hz
    · have : n = 0 := by omega
      subst this
      have : natRepr 0 = ['0'] := by rw [natRepr]; rfl
      rw [this] at hlen
      simp at hlen
  rw [if_neg hlead]
  rcases hb with rfl | ⟨c, t, rfl, hc, hdot, he, hE⟩
  · simp [digitsToNat_natRepr]
  · simp only
    rw [if_neg (by simp [hdot, he, hE])]
    simp [digitsToNat_natRepr]

theorem parseNum_intRepr (n : Int) (rest : List Char)
    (hb : rest = [] ∨ ∃ c t, rest = c :: t ∧ c.isDigit = false ∧ c ≠ '.' ∧ c ≠ 'e' ∧ c ≠ 'E') :
    parseNum (intRepr n ++ rest) = some (Json.num n, rest) := by
  cases n with
  | ofNat m =>
    obtain ⟨c, t, hct⟩ : ∃ c t, natRepr m = c :: t := by
      rcases hq : natRepr m with _ | ⟨c, t⟩
      · exact absurd hq (natRepr_ne_nil m)
      · exact ⟨c, t, rfl⟩
    have hcd : c.isDigit = true := natRepr_digits m c (by rw [hct]; simp)
    have hcne : c ≠ '-' := by
      intro hh; subst hh; simp at hcd
    simp only [intRepr, hct, List.cons_append, parseNum]
    rw [if_neg hcne]
    rw [show c :: (t ++ rest) = (c :: t) ++ rest from rfl, ← hct]
    rw [parseNatPart_natRepr m rest hb]
    rfl
  | negSucc m =>
    simp only [intRepr, List.cons_append, parseNum, if_pos]
    rw [parseNatPart_natRepr (m + 1) rest hb]
    simp [Int.negSucc_eq]

theorem parseHexDigit_hexDigitChar (d : Nat) (h : d < 16) :
    parseHexDigit (hexDigitChar d) = some d := by
  interval_cases d <;> decide

theorem parseStringBody_escape (s rest : List Char) :
    parseStringBody (escapeStr s ++ ('"' :: rest)) = some (s, rest) := by
  induction s with
  | nil =>
    have h0 : escapeStr [] = [] := rfl
    rw [h0, List.nil_append]
    conv_lhs => rw [parseStringBody.eq_def]
    simp
  | cons c s ih =>
    have hesc : escapeStr (c :: s) ++ ('"' :: rest) =
        escapeChar c ++ (escapeStr s ++ ('"' :: rest)) := by
      simp [escapeStr]
    rw [hesc]
    by_cases hq : c = '"'
    · subst hq
      rw [show escapeChar '"' = ['\\', '"'] from rfl]
      conv_lhs => rw [parseStringBody.eq_def]
      simp [unescapeChar, ih]
    · by_cases hbs : c = '\\'
      · subst hbs
        rw [show escapeChar '\\' = ['\\', '\\'] from rfl]
        conv_lhs => rw [parseStringBody.eq_def]
        simp [unescapeChar, ih]
      · by_cases hn : c = '\n'
        · subst hn
          rw [show escapeChar '\n' = ['\\', 'n'] from rfl]
          conv_lhs => rw [parseStringBody.eq_def]
          simp [unescapeChar, ih]
        · by_cases ht : c = '\t'
          · subst ht
            rw [show escapeChar '\t' = ['\\', 't'] from rfl]
            conv_lhs => rw [parseStringBody.eq_def]
            simp [unescapeChar, ih]
          · by_cases hr : c = '\r'
            · subst hr
              rw [show escapeChar '\r' = ['\\', 'r'] from rfl]
              conv_lhs => rw [parseStringBody.eq_def]
              simp [unescapeChar, ih]
            · by_cases hb8 : c = '\x08'
              · subst hb8
                rw [show escapeChar '\x08' = ['\\', 'b'] from rfl]
                conv_lhs => rw [parseStringBody.eq_def]
                simp [unescapeChar, ih]
              · by_cases hf : c = '\x0c'
                · subst hf
                  rw [show escapeChar '\x0c' = ['\\', 'f'] from rfl]
                  conv_lhs => rw [parseStringBody.eq_def]
                  simp [unescapeChar, ih]
                · by_cases hctl : c.toNat < 32
                  · have e1 : escapeChar c =
                        ['\\', 'u', '0', '0', hexDigitChar (c.toNat / 16),
                         hexDigitChar (c.toNat % 16)] := by
                      simp [escapeChar, hq, hbs, hn, ht, hr, hb8, hf, hctl]
                    rw [e1]
                    have hd1 : parseHexDigit (hexDigitChar (c.toNat / 16)) =
                        some (c.toNat / 16) := parseHexDigit_hexDigitChar _ (by omega)
                    have hd2 : parseHexDigit (hexDigitChar (c.toNat % 16)) =
                        some (c.toNat % 16) := parseHexDigit_hexDigitChar _ (by omega)
                    have hz : parseHexDigit '0' = some 0 := by decide
                    conv_lhs => rw [parseStringBody.eq_def]
                    simp only [List.cons_append, List.nil_append]
                    simp [hz, hd1, hd2, ih]
                    have harith : c.toNat / 16 * 16 + c.toNat % 16 = c.toNat := by omega
                    rw [harith, Char.ofNat_toNat]
                  · have e1 : escapeChar c = [c] := by
                      simp [escapeChar, hq, hbs, hn, ht, hr, hb8, hf, hctl]
                    rw [e1]
                    conv_lhs => rw [parseStringBody.eq_def]
                    simp [hq, hbs, hctl, ih]

mutual
/-- Fuel needed by `parseValue` to parse the encoding of a value. -/
def jfuel : Json → Nat
  | .arr xs => 1 + ifuel xs
  | .obj fs => 1 + ffuel fs
  | _ => 1

def ifuel : List Json → Nat
  | [] => 1
  | x :: rest => 1 + max (jfuel x) (ifuel rest)

def ffuel : List (List Char × Json) → Nat
  | [] => 1
  | kv :: rest => 1 + max (jfuel kv.2) (ffuel rest)
end

theorem jfuel_pos (j : Json) : 1 ≤ jfuel j := by
  cases j <;> simp [jfuel]

theorem ifuel_pos (xs : List Json) : 1 ≤ ifuel xs := by
  cases xs <;> simp [ifuel]

theorem ffuel_pos (fs : List (List Char × Json)) : 1 ≤ ffuel fs := by
  cases fs <;> simp [ffuel]

theorem skipWs_ws_front (sp l : List Char) (h : ∀ c ∈ sp, jsonWs c = true) :
    skipWs (sp ++ l) = skipWs l := by
  induction sp with
  | nil => rfl
  | cons c sp ih =>
    have hc : jsonWs c = true := h c (by simp)
    simp only [List.cons_append, skipWs, hc, if_pos]
    exact ih (fun d hd => h d (by simp [hd]))

theorem skipWs_cons_not (c : Char) (l : List Char) (h : jsonWs c = false) :
    skipWs (c :: l) = c :: l := by
  simp [skipWs, h]

theorem listStartsWith_self_append (p l : List Char) :
    listStartsWith p (p ++ l) = true := by
  induction p with
  | nil => rfl
  | cons c p ih => simp [listStartsWith, ih]

theorem listStartsWith_false_head (p : Char) (ps : List Char) (c : Char) (t : List Char)
    (h : c ≠ p) : listStartsWith (p :: ps) (c :: t) = false := by
  simp [listStartsWith]
  intro hh
  exact absurd hh.symm h

theorem digit_head_facts (c : Char) (h : c.isDigit = true) :
    c ≠ 'n' ∧ c ≠ 't' ∧ c ≠ 'f' ∧ c ≠ '"' ∧ c ≠ '[' ∧ c ≠ '\x7b' ∧
    jsonWs c = false ∧ c ≠ ']' ∧ c ≠ '\x7d' ∧ c ≠ '-' := by
  refine ⟨?_, ?_, ?_, ?_, ?_, ?_, ?_, ?_, ?_, ?_⟩ <;>
    first
    | (intro hh; subst hh; simp at h)
    | (cases hw : jsonWs c
       · rfl
       · exfalso
         have : ((c = ' ' ∨ c = '\t') ∨ c = '\n') ∨ c = '\r' := by
           simpa [jsonWs] using hw
         rcases this with ((rfl | rfl) | rfl) | rfl <;> simp at h)

/-- The first character of an encoded value: never whitespace, a closing
bracket, or a closing brace. -/
theorem jsonEncode_head (j : Json) :
    ∃ c t, jsonEncode j = c :: t ∧ jsonWs c = false ∧ c ≠ ']' ∧ c ≠ '\x7d' := by
  cases j with
  | null => exact ⟨'n', _, rfl, by decide, by decide, by decide⟩
  | bool b =>
    cases b
    · exact ⟨'f', _, rfl, by decide, by decide, by decide⟩
    · exact ⟨'t', _, rfl, by decide, by decide, by decide⟩
  | num n =>
    cases n with
    | ofNat m =>
      obtain ⟨c, t, hct⟩ : ∃ c t, natRepr m = c :: t := by
        rcases hq : natRepr m with _ | ⟨c, t⟩
        · exact absurd hq (natRepr_ne_nil m)
        · exact ⟨c, t, rfl⟩
      have hcd : c.isDigit = true := natRepr_digits m c (by rw [hct]; simp)
      obtain ⟨_, _, _, _, _, _, hws, hbr, hbc, _⟩ := digit_head_facts c hcd
      exact ⟨c, t, by simp [jsonEncode, intRepr, hct], hws, hbr, hbc⟩
    | negSucc m =>
      exact ⟨'-', natRepr (m + 1), by simp [jsonEncode, intRepr], by decide, by decide,
        by decide⟩
  | str s => exact ⟨'"', _, rfl, by decide, by decide, by decide⟩
  | arr xs => exact ⟨'[', _, rfl, by decide, by decide, by decide⟩
  | obj fs => exact ⟨'\x7b', _, rfl, by decide, by decide, by decide⟩

/-- Context after an encoded number: nothing, or a character that cannot
extend the number. -/
def numBoundary (rest : List Char) : Prop :=
  rest = [] ∨ ∃ c t, rest = c :: t ∧ c.isDigit = false ∧ c ≠ '.' ∧ c ≠ 'e' ∧ c ≠ 'E'

theorem parse_encode_fuel (fuel : Nat) :
    (∀ j sp rest, (∀ c ∈ sp, jsonWs c = true) → jfuel j ≤ fuel → numBoundary rest →
      parseValue fuel (sp ++ (jsonEncode j ++ rest)) = some (j, rest)) ∧
    (∀ xs sp rest, xs ≠ [] → (∀ c ∈ sp, jsonWs c = true) → ifuel xs ≤ fuel →
      parseItems fuel (sp ++ (encodeItems xs ++ (']' :: rest))) = some (xs, rest)) ∧
    (∀ fs rest, fs ≠ [] → ffuel fs ≤ fuel →
      parseFields fuel (encodeFields fs ++ ('\x7d' :: rest)) = some (fs, rest)) := by
  induction fuel with
  | zero =>
    refine ⟨?_, ?_, ?_⟩
    · intro j _ _ _ hf _
      exact absurd hf (by have := jfuel_pos j; omega)
    · intro xs _ _ _ _ hf
      exact absurd hf (by have := ifuel_pos xs; omega)
    · intro fs _ _ hf
      exact absurd hf (by have := ffuel_pos fs; omega)
  | succ fuel ih =>
    obtain ⟨ihv, ihi, ihf⟩ := ih
    refine ⟨?_, ?_, ?_⟩
    · intro j sp rest hsp hfuel hb
      cases j with
      | null =>
        have hskip : skipWs (sp ++ (jsonEncode Json.null ++ rest)) =
            "null".toList ++ rest := by
          rw [skipWs_ws_front sp _ hsp]
          exact skipWs_cons_not 'n' _ (by decide)
        rw [parseValue]
        rw [hskip]
        simp [listStartsWith]
      | bool b =>
        cases b
        · have hskip : skipWs (sp ++ (jsonEncode (Json.bool false) ++ rest)) =
              "false".toList ++ rest := by
            rw [skipWs_ws_front sp _ hsp]
            exact skipWs_cons_not 'f' _ (by decide)
          rw [parseValue]
          rw [hskip]
          simp [listStartsWith]
        · have hskip : skipWs (sp ++ (jsonEncode (Json.bool true) ++ rest)) =
              "true".toList ++ rest := by
            rw [skipWs_ws_front sp _ hsp]
            exact skipWs_cons_not 't' _ (by decide)
          rw [parseValue]
          rw [hskip]
          simp [listStartsWith]
      | num n =>
        obtain ⟨c, t, hct, hcd⟩ :
            ∃ c t, intRepr n = c :: t ∧ (c.isDigit = true ∨ c = '-') := by
          cases n with
          | ofNat m =>
            obtain ⟨c, t, hq⟩ : ∃ c t, natRepr m = c :: t := by
              rcases hq : natRepr m with _ | ⟨c, t⟩
              · exact absurd hq (natRepr_ne_nil m)
              · exact ⟨c, t, rfl⟩
            exact ⟨c, t, by simp [intRepr, hq],
              Or.inl (natRepr_digits m c (by rw [hq]; simp))⟩
          | negSucc m => exact ⟨'-', natRepr (m + 1), by simp [intRepr], Or.inr rfl⟩
        have hfacts : c ≠ 'n' ∧ c ≠ 't' ∧ c ≠ 'f' ∧ c ≠ '"' ∧ c ≠ '[' ∧ c ≠ '\x7b' ∧
            jsonWs c = false := by
          rcases hcd with hcd | rfl
          · obtain ⟨a1, a2, a3, a4, a5, a6, a7, _, _, _⟩ := digit_head_facts c hcd
            exact ⟨a1, a2, a3, a4, a5, a6, a7⟩
          · exact ⟨by decide, by decide, by decide, by decide, by decide, by decide,
              by decide⟩
        obtain ⟨f1, f2, f3, f4, f5, f6, f7⟩ := hfacts
        have hskip : skipWs (sp ++ (jsonEncode (Json.num n) ++ rest)) =
            c :: (t ++ rest) := by
          rw [skipWs_ws_front sp _ hsp]
          simp only [jsonEncode, hct, List.cons_append]
          exact skipWs_cons_not c _ f7
        have hnum : parseNum (c :: (t ++ rest)) = some (Json.num n, rest) := by
          rw [show c :: (t ++ rest) = intRepr n ++ rest from by simp [hct]]
          exact parseNum_intRepr n rest hb
        rw [parseValue]
        rw [hskip]
        simp [listStartsWith, Ne.symm f1, Ne.symm f2, Ne.symm f3, f4, f5, f6, hnum]
      | str s =>
        have hskip : skipWs (sp ++ (jsonEncode (Json.str s) ++ rest)) =
            '"' :: (escapeStr s ++ ('"' :: rest)) := by
          rw [skipWs_ws_front sp _ hsp]
          simp only [jsonEncode, List.cons_append]
          rw [skipWs_cons_not '"' _ (by decide)]
          simp
        have hstr := parseStringBody_escape s rest
        rw [parseValue]
        rw [hskip]
        simp [listStartsWith, hstr]
      | arr xs =>
        have hskip : skipWs (sp ++ (jsonEncode (Json.arr xs) ++ rest)) =
            '[' :: (encodeItems xs ++ (']' :: rest)) := by
          rw [skipWs_ws_front sp _ hsp]
          simp only [jsonEncode, List.cons_append]
          rw [skipWs_cons_not '[' _ (by decide)]
          simp
        rw [parseValue]
        rw [hskip]
        cases xs with
        | nil =>
          have h0 : encodeItems [] = ([] : List Char) := rfl
          rw [h0]
          simp [listStartsWith, skipWs, jsonWs]
        | cons x xs' =>
          obtain ⟨c0, t0, hc0, hw0, hbr0, _⟩ := jsonEncode_head x
          obtain ⟨t1, ht1⟩ : ∃ t1, encodeItems (x :: xs') = c0 :: t1 := by
            cases xs' with
            | nil => exact ⟨t0, by simp [encodeItems, hc0]⟩
            | cons y ys => exact ⟨t0 ++ (',' :: ' ' :: encodeItems (y :: ys)),
                by simp [encodeItems, hc0]⟩
          have hif : ifuel (x :: xs') ≤ fuel := by
            have hj : jfuel (Json.arr (x :: xs')) = 1 + ifuel (x :: xs') := by
              simp [jfuel]
            omega
          have hitems := ihi (x :: xs') [] rest (by simp) (by simp) hif
          simp only [List.nil_append] at hitems
          have hsk2 : skipWs (encodeItems (x :: xs') ++ (']' :: rest)) =
              c0 :: (t1 ++ (']' :: rest)) := by
            rw [ht1]
            simp only [List.cons_append]
            exact skipWs_cons_not c0 _ hw0
          have hback : parseItems fuel (c0 :: (t1 ++ (']' :: rest))) =
              some (x :: xs', rest) := by
            rw [show c0 :: (t1 ++ (']' :: rest)) = encodeItems (x :: xs') ++ (']' :: rest)
                from by rw [ht1]; simp]
            exact hitems
          simp [listStartsWith, hsk2, hbr0, hback]
      | obj fs =>
        have hskip : skipWs (sp ++ (jsonEncode (Json.obj fs) ++ rest)) =
            '\x7b' :: (encodeFields fs ++ ('\x7d' :: rest)) := by
          rw [skipWs_ws_front sp _ hsp]
          simp only [jsonEncode, List.cons_append]
          rw [skipWs_cons_not '\x7b' _ (by decide)]
          simp
        rw [parseValue]
        rw [hskip]
        cases fs with
        | nil =>
          have h0 : encodeFields [] = ([] : List Char) := rfl
          rw [h0]
          simp [listStartsWith, skipWs, jsonWs]
        | cons kv fs' =>
          obtain ⟨t1, ht1⟩ : ∃ t1, encodeFields (kv :: fs') = '"' :: t1 := by
            cases fs' with
            | nil =>
              exact ⟨escapeStr kv.1 ++ ('"' :: ':' :: ' ' :: jsonEncode kv.2),
                by simp [encodeFields]⟩
            | cons f fs'' =>
              exact ⟨(escapeStr kv.1 ++ ('"' :: ':' :: ' ' :: jsonEncode kv.2)) ++
                  (',' :: ' ' :: encodeFields (f :: fs'')),
                by simp [encodeFields]⟩
          have hff : ffuel (kv :: fs') ≤ fuel := by
            have hj : jfuel (Json.obj (kv :: fs')) = 1 + ffuel (kv :: fs') := by
              simp [jfuel]
            omega
          have hfields := ihf (kv :: fs') rest (by simp) hff
          have hsk2 : skipWs (encodeFields (kv :: fs') ++ ('\x7d' :: rest)) =
              '"' :: (t1 ++ ('\x7d' :: rest)) := by
            rw [ht1]
            simp only [List.cons_append]
            exact skipWs_cons_not '"' _ (by decide)
          have hback : parseFields fuel ('"' :: (t1 ++ ('\x7d' :: rest))) =
              some (kv :: fs', rest) := by
            rw [show '"' :: (t1 ++ ('\x7d' :: rest)) =
                encodeFields (kv :: fs') ++ ('\x7d' :: rest) from by rw [ht1]; simp]
            exact hfields
          simp [listStartsWith, hsk2, hback]
    · intro xs sp rest hne hsp hfuel
      cases xs with
      | nil => exact absurd rfl hne
      | cons x xs' =>
        rw [parseItems]
        have hjx : jfuel x ≤ fuel := by
          have hie : ifuel (x :: xs') = 1 + max (jfuel x) (ifuel xs') := by simp [ifuel]
          have hm := le_max_left (jfuel x) (ifuel xs')
          omega
        cases xs' with
        | nil =>
          have hv := ihv x sp (']' :: rest) hsp hjx
            (Or.inr ⟨']', rest, rfl, by decide, by decide, by decide, by decide⟩)
          have hin : sp ++ (encodeItems [x] ++ (']' :: rest)) =
              sp ++ (jsonEncode x ++ (']' :: rest)) := by simp [encodeItems]
          rw [hin, hv]
          have hsk : skipWs (']' :: rest) = ']' :: rest := skipWs_cons_not ']' _ (by decide)
          simp [hsk]
        | cons y ys =>
          have hv := ihv x sp
            (',' :: (' ' :: (encodeItems (y :: ys) ++ (']' :: rest)))) hsp hjx
            (Or.inr ⟨',', _, rfl, by decide, by decide, by decide, by decide⟩)
          have hin : sp ++ (encodeItems (x :: y :: ys) ++ (']' :: rest)) =
              sp ++ (jsonEncode x ++
                (',' :: (' ' :: (encodeItems (y :: ys) ++ (']' :: rest))))) := by
            simp [encodeItems]
          rw [hin, hv]
          have hiy : ifuel (y :: ys) ≤ fuel := by
            have hie : ifuel (x :: y :: ys) = 1 + max (jfuel x) (ifuel (y :: ys)) := by
              simp [ifuel]
            have hm := le_max_right (jfuel x) (ifuel (y :: ys))
            omega
          have hrec := ihi (y :: ys) [' '] rest (by simp) (by decide) hiy
          have hsk : skipWs (',' :: (' ' :: (encodeItems (y :: ys) ++ (']' :: rest)))) =
              ',' :: (' ' :: (encodeItems (y :: ys) ++ (']' :: rest))) :=
            skipWs_cons_not ',' _ (by decide)
          have hrec' : parseItems fuel (' ' :: (encodeItems (y :: ys) ++ (']' :: rest))) =
              some (y :: ys, rest) := hrec
          simp [hsk, hrec']
    · intro fs rest hne hfuel
      cases fs with
      | nil => exact absurd rfl hne
      | cons kv fs' =>
        have hjv : jfuel kv.2 ≤ fuel := by
          have hfe : ffuel (kv :: fs') = 1 + max (jfuel kv.2) (ffuel fs') := by simp [ffuel]
          have hm := le_max_left (jfuel kv.2) (ffuel fs')
          omega
        cases fs' with
        | nil =>
          have hin : encodeFields [kv] ++ ('\x7d' :: rest) =
              '"' :: (escapeStr kv.1 ++
                ('"' :: (':' :: (' ' :: (jsonEncode kv.2 ++ ('\x7d' :: rest)))))) := by
            simp [encodeFields]
          rw [hin, parseFields]
          have hstr := parseStringBody_escape kv.1
            (':' :: (' ' :: (jsonEncode kv.2 ++ ('\x7d' :: rest))))
          have hv := ihv kv.2 [' '] ('\x7d' :: rest) (by decide) hjv
            (Or.inr ⟨'\x7d', rest, rfl, by decide, by decide, by decide, by decide⟩)
          have hv' : parseValue fuel (' ' :: (jsonEncode kv.2 ++ ('\x7d' :: rest))) =
              some (kv.2, '\x7d' :: rest) := hv
          have hsk1 : skipWs (':' :: (' ' :: (jsonEncode kv.2 ++ ('\x7d' :: rest)))) =
              ':' :: (' ' :: (jsonEncode kv.2 ++ ('\x7d' :: rest))) :=
            skipWs_cons_not ':' _ (by decide)
          have hsk2 : skipWs ('\x7d' :: rest) = '\x7d' :: rest :=
            skipWs_cons_not '\x7d' _ (by decide)
          simp [hstr, hv', hsk1, hsk2]
        | cons f fs'' =>
          have hin : encodeFields (kv :: f :: fs'') ++ ('\x7d' :: rest) =
              '"' :: (escapeStr kv.1 ++
                ('"' :: (':' :: (' ' :: (jsonEncode kv.2 ++
                  (',' :: (' ' :: (encodeFields (f :: fs'') ++ ('\x7d' :: rest))))))))) := by
            simp [encodeFields]
          rw [hin, parseFields]
          have hstr := parseStringBody_escape kv.1
            (':' :: (' ' :: (jsonEncode kv.2 ++
              (',' :: (' ' :: (encodeFields (f :: fs'') ++ ('\x7d' :: rest)))))))
          have hv := ihv kv.2 [' ']
            (',' :: (' ' :: (encodeFields (f :: fs'') ++ ('\x7d' :: rest)))) (by decide) hjv
            (Or.inr ⟨',', _, rfl, by decide, by decide, by decide, by decide⟩)
          have hv' : parseValue fuel (' ' :: (jsonEncode kv.2 ++
              (',' :: (' ' :: (encodeFields (f :: fs'') ++ ('\x7d' :: rest)))))) =
              some (kv.2, ',' :: (' ' :: (encodeFields (f :: fs'') ++ ('\x7d' :: rest)))) :=
            hv
          have hff : ffuel (f :: fs'') ≤ fuel := by
            have hfe : ffuel (kv :: f :: fs'') =
                1 + max (jfuel kv.2) (ffuel (f :: fs'')) := by simp [ffuel]
            have hm := le_max_right (jfuel kv.2) (ffuel (f :: fs''))
            omega
          have hrec := ihf (f :: fs'') rest (by simp) hff
          obtain ⟨t1, ht1⟩ : ∃ t1, encodeFields (f :: fs'') = '"' :: t1 := by
            cases fs'' with
            | nil =>
              exact ⟨escapeStr f.1 ++ ('"' :: ':' :: ' ' :: jsonEncode f.2),
                by simp [encodeFields]⟩
            | cons g gs =>
              exact ⟨(escapeStr f.1 ++ ('"' :: ':' :: ' ' :: jsonEncode f.2)) ++
                  (',' :: ' ' :: encodeFields (g :: gs)),
                by simp [encodeFields]⟩
          have hsk1 : skipWs (':' :: (' ' :: (jsonEncode kv.2 ++
              (',' :: (' ' :: (encodeFields (f :: fs'') ++ ('\x7d' :: rest))))))) =
              ':' :: (' ' :: (jsonEncode kv.2 ++
              (',' :: (' ' :: (encodeFields (f :: fs'') ++ ('\x7d' :: rest)))))) :=
            skipWs_cons_not ':' _ (by decide)
          have hsk2 : skipWs (',' :: (' ' :: (encodeFields (f :: fs'') ++
              ('\x7d' :: rest)))) =
              ',' :: (' ' :: (encodeFields (f :: fs'') ++ ('\x7d' :: rest))) :=
            skipWs_cons_not ',' _ (by decide)
          have hsk3 : skipWs (' ' :: (encodeFields (f :: fs'') ++ ('\x7d' :: rest))) =
              encodeFields (f :: fs'') ++ ('\x7d' :: rest) := by
            rw [show ' ' :: (encodeFields (f :: fs'') ++ ('\x7d' :: rest)) =
                [' '] ++ (encodeFields (f :: fs'') ++ ('\x7d' :: rest)) from rfl]
            rw [skipWs_ws_front [' '] _ (by decide), ht1]
            exact skipWs_cons_not '"' _ (by decide)
          simp [hstr, hv', hsk1, hsk2, hsk3, hrec]

theorem json_ind (P : Json → Prop) (h0 : P .null) (hb : ∀ b, P (.bool b))
    (hn : ∀ n, P (.num n)) (hs : ∀ s, P (.str s))
    (ha : ∀ xs, (∀ x ∈ xs, P x) → P (.arr xs))
    (ho : ∀ fs, (∀ kv ∈ fs, P kv.2) → P (.obj fs)) : ∀ j, P j := by
  have key : ∀ n j, sizeOf j ≤ n → P j := by
    intro n
    induction n with
    | zero =>
      intro j h
      cases j <;> simp_arith at h
    | succ n ih =>
      intro j hle
      cases j with
      | null => exact h0
      | bool b => exact hb b
      | num m => exact hn m
      | str s => exact hs s
      | arr xs =>
        refine ha xs (fun x hx => ih x ?_)
        have h1 := List.sizeOf_lt_of_mem hx
        simp_arith at hle
        omega
      | obj fs =>
        refine ho fs (fun kv hkv => ih kv.2 ?_)
        have h1 := List.sizeOf_lt_of_mem hkv
        have h2 : sizeOf kv = 1 + sizeOf kv.1 + sizeOf kv.2 := by
          rcases kv with ⟨a, b⟩
          simp
        simp_arith at hle
        omega
  exact fun j => key (sizeOf j) j le_rfl

theorem jsonifyList_id (xs : List Json) (h : ∀ x ∈ xs, jsonify x = x) :
    jsonifyList xs = xs := by
  induction xs with
  | nil => rfl
  | cons x rest ih =>
    rw [jsonifyList, h x (by simp), ih (fun y hy => h y (by simp [hy]))]

theorem jsonifyFields_id (fs : List (List Char × Json))
    (h : ∀ kv ∈ fs, jsonify kv.2 = kv.2) : jsonifyFields fs = fs := by
  induction fs with
  | nil => rfl
  | cons kv rest ih =>
    rw [jsonifyFields, h kv (by simp), ih (fun g hg => h g (by simp [hg]))]

/-- `_jsonify` is the identity on JSON-serializable values. -/
theorem jsonify_id : ∀ j, jsonify j = j := by
  refine json_ind _ rfl (fun b => rfl) (fun n => rfl) (fun s => rfl) ?_ ?_
  · intro xs h
    rw [jsonify, jsonifyList_id xs h]
  · intro fs h
    rw [jsonify, jsonifyFields_id fs h]

theorem jsonEncode_length_pos (j : Json) : 1 ≤ (jsonEncode j).length := by
  obtain ⟨c, t, h, _⟩ := jsonEncode_head j
  simp [h]

theorem ifuel_le (xs : List Json)
    (h : ∀ x ∈ xs, jfuel x ≤ (jsonEncode x).length + 1) :
    ifuel xs ≤ (encodeItems xs).length + 2 := by
  induction xs with
  | nil =>
    have h1 : ifuel ([] : List Json) = 1 := by rw [ifuel]
    omega
  | cons x rest ih =>
    have hx := h x (by simp)
    have hr := ih (fun y hy => h y (by simp [hy]))
    have hie : ifuel (x :: rest) = 1 + max (jfuel x) (ifuel rest) := by rw [ifuel]
    have hpos := jsonEncode_length_pos x
    cases rest with
    | nil =>
      have hif : ifuel ([] : List Json) = 1 := by rw [ifuel]
      have hlen : (encodeItems [x]).length = (jsonEncode x).length := by
        rw [show encodeItems [x] = jsonEncode x from by rw [encodeItems]]
      omega
    | cons y ys =>
      have hlen : (encodeItems (x :: y :: ys)).length =
          (jsonEncode x).length + 2 + (encodeItems (y :: ys)).length := by
        rw [show encodeItems (x :: y :: ys) =
            jsonEncode x ++ (',' :: ' ' :: encodeItems (y :: ys)) from by
          rw [encodeItems]]
        simp
        omega
      omega

theorem ffuel_le (fs : List (List Char × Json))
    (h : ∀ kv ∈ fs, jfuel kv.2 ≤ (jsonEncode kv.2).length + 1) :
    ffuel fs ≤ (encodeFields fs).length + 2 := by
  induction fs with
  | nil =>
    have h1 : ffuel ([] : List (List Char × Json)) = 1 := by rw [ffuel]
    omega
  | cons kv rest ih =>
    have hx := h kv (by simp)
    have hr := ih (fun g hg => h g (by simp [hg]))
    have hfe : ffuel (kv :: rest) = 1 + max (jfuel kv.2) (ffuel rest) := by rw [ffuel]
    have hpos := jsonEncode_length_pos kv.2
    cases rest with
    | nil =>
      have hff : ffuel ([] : List (List Char × Json)) = 1 := by rw [ffuel]
      have hlen : (encodeFields [kv]).length =
          (escapeStr kv.1).length + 4 + (jsonEncode kv.2).length := by
        rw [show encodeFields [kv] =
            '"' :: (escapeStr kv.1 ++ ('"' :: ':' :: ' ' :: jsonEncode kv.2)) from by
          rw [encodeFields]]
        simp
        omega
      omega
    | cons f fs' =>
      have hlen : (encodeFields (kv :: f :: fs')).length =
          (escapeStr kv.1).length + 6 + (jsonEncode kv.2).length +
            (encodeFields (f :: fs')).length := by
        rw [show encodeFields (kv :: f :: fs') =
            ('"' :: (escapeStr kv.1 ++ ('"' :: ':' :: ' ' :: jsonEncode kv.2))) ++
              (',' :: ' ' :: encodeFields (f :: fs')) from by
          rw [encodeFields]]
        simp
        omega
      omega

theorem jfuel_le_encode : ∀ j, jfuel j ≤ (jsonEncode j).length + 1 := by
  refine json_ind _ ?_ ?_ ?_ ?_ ?_ ?_
  · have h1 : jfuel Json.null = 1 := by simp [jfuel]
    omega
  · intro b
    have h1 : jfuel (Json.bool b) = 1 := by simp [jfuel]
    omega
  · intro n
    have h1 : jfuel (Json.num n) = 1 := by simp [jfuel]
    omega
  · intro s
    have h1 : jfuel (Json.str s) = 1 := by simp [jfuel]
    omega
  · intro xs h
    have hi := ifuel_le xs h
    have hj : jfuel (Json.arr xs) = 1 + ifuel xs := by simp [jfuel]
    have hlen : (jsonEncode (Json.arr xs)).length = (encodeItems xs).length + 2 := by
      rw [show jsonEncode (Json.arr xs) = '[' :: (encodeItems xs ++ [']']) from by
        rw [jsonEncode]]
      simp
    omega
  · intro fs h
    have hi := ffuel_le fs h
    have hj : jfuel (Json.obj fs) = 1 + ffuel fs := by simp [jfuel]
    have hlen : (jsonEncode (Json.obj fs)).length = (encodeFields fs).length + 2 := by
      rw [show jsonEncode (Json.obj fs) = '\x7b' :: (encodeFields fs ++ ['\x7d']) from by
        rw [jsonEncode]]
      simp
    omega

/-- `json.loads` inverts `json.dumps` on every JSON value. -/
theorem jsonLoads_jsonEncode (j : Json) : jsonLoads (jsonEncode j) = some j := by
  unfold jsonLoads
  have h := (parse_encode_fuel ((jsonEncode j).length + 1)).1 j [] []
    (by simp) (by have := jfuel_le_encode j; omega) (Or.inl rfl)
  simp only [List.nil_append, List.append_nil] at h
  rw [h]
  rfl

/-- The `name_cache` SQLite table (`key TEXT PRIMARY KEY, value TEXT`):
the primary key keeps at most one row per key, so the table is an
association list of key/value rows. -/
abbrev CacheState := List (List Char × List Char)

/-- `SELECT value FROM name_cache WHERE key=?` + `fetchone()`. -/
def db_get (st : CacheState) (k : List Char) : Option (List Char) :=
  (st.find? (fun r => r.1 == k)).map (fun r => r.2)

/-- `INSERT OR REPLACE INTO name_cache(key,value) VALUES(?,?)`: any
existing row with this key is replaced, every other row is kept. -/
def db_put (st : CacheState) (k v : List Char) : CacheState :=
  (k, v) :: st.filter (fun r => !(r.1 == k))

/-- What `cache_get` hands back for a hit: `json.loads(row[0])` when the
stored text parses, the raw text otherwise. -/
inductive CacheVal where
  | parsed (j : Json)
  | raw (s : List Char)

/-- `cache_get`: `None` on a miss; on a hit, the parsed JSON value, or
the raw stored text when `json.loads` raises. -/
def cache_get (st : CacheState) (k : List Char) : Option CacheVal :=
  match db_get st k with
  | none => none
  | some text =>
    match jsonLoads text with
    | some j => some (.parsed j)
    | none => some (.raw text)

/-- `cache_set`: store `json.dumps(_jsonify(value), ensure_ascii=False)`
under the key with `INSERT OR REPLACE`. -/
def cache_set (st : CacheState) (k : List Char) (v : Json) : CacheState :=
  db_put st k (jsonEncode (jsonify v))

/-- `cache_set_many`: `executemany` of the same `INSERT OR REPLACE`, one
row per item, in list order (on `[]` it returns with no statement run,
which is the same state). -/
def cache_set_many (st : CacheState) (items : List (List Char × Json)) : CacheState :=
  items.foldl (fun s kv => db_put s kv.1 (jsonEncode (jsonify kv.2))) st

theorem find?_filter_ne (l : CacheState) (k q : List Char) (h : q ≠ k) :
    List.find? (fun r => r.1 == q) (l.filter (fun r => !(r.1 == k))) =
      List.find? (fun r => r.1 == q) l := by
  induction l with
  | nil => rfl
  | cons r rest ih =>
    by_cases hq : r.1 = q
    · have h1 : (r.1 == q) = true := by simp [hq]
      have h2 : (r.1 == k) = false := beq_eq_false_iff_ne.mpr (hq ▸ h)
      simp [List.filter_cons, h2, List.find?_cons, h1]
    · have h1 : (r.1 == q) = false := beq_eq_false_iff_ne.mpr hq
      by_cases hk : r.1 = k
      · have h2 : (r.1 == k) = true := by simp [hk]
        simp [List.filter_cons, h2, List.find?_cons, h1, ih]
      · have h2 : (r.1 == k) = false := beq_eq_false_iff_ne.mpr hk
        simp [List.filter_cons, h2, List.find?_cons, h1, ih]

theorem db_get_put_eq (st : CacheState) (k v : List Char) :
    db_get (db_put st k v) k = some v := by
  simp [db_get, db_put, List.find?_cons]

theorem db_get_put_ne (st : CacheState) (k v q : List Char) (h : q ≠ k) :
    db_get (db_put st k v) q = db_get st q := by
  have h1 : (k == q) = false := beq_eq_false_iff_ne.mpr (Ne.symm h)
  simp only [db_get, db_put, List.find?_cons, h1]
  rw [find?_filter_ne st k q h]

theorem cache_get_set_ne (st : CacheState) (k : List Char) (v : Json)
    (q : List Char) (h : q ≠ k) :
    cache_get (cache_set st k v) q = cache_get st q := by
  simp only [cache_get, cache_set, db_get_put_ne st k (jsonEncode (jsonify v)) q h]

theorem cache_get_set_many_ne (st : CacheState)
    (items : List (List Char × Json)) (q : List Char)
    (h : ∀ kv ∈ items, kv.1 ≠ q) :
    cache_get (cache_set_many st items) q = cache_get st q := by
  induction items generalizing st with
  | nil => rfl
  | cons kv rest ih =>
    have hkv : kv.1 ≠ q := h kv (by simp)
    have hrest : ∀ g ∈ rest, g.1 ≠ q := fun g hg => h g (by simp [hg])
    show cache_get (cache_set_many (db_put st kv.1 (jsonEncode (jsonify kv.2))) rest) q = _
    rw [ih _ hrest]
    simp only [cache_get,
      db_get_put_ne st kv.1 (jsonEncode (jsonify kv.2)) q (Ne.symm hkv)]

/-- C4: the `name_cache` table is a pure key→JSON-string memoization
cache with no eviction: (1) `cache_get` after `cache_set(k, v)` returns
the value `v` itself (its stored text parses back, so JSON-equality is
equality); (2) `cache_set` leaves the result of `cache_get` on every
other key unchanged; (3) `cache_set_many` leaves every key not in its
item list unchanged; (4) a key that was present stays present — rows are
only inserted or replaced by key, never removed. -/
theorem name_cache_memoization :
    (∀ (st : CacheState) (k : List Char) (v : Json),
      cache_get (cache_set st k v) k = some (.parsed v)) ∧
    (∀ (st : CacheState) (k : List Char) (v : Json) (q : List Char), q ≠ k →
      cache_get (cache_set st k v) q = cache_get st q) ∧
    (∀ (st : CacheState) (items : List (List Char × Json)) (q : List Char),
      (∀ kv ∈ items, kv.1 ≠ q) →
      cache_get (cache_set_many st items) q = cache_get st q) ∧
    (∀ (st : CacheState) (k : List Char) (v : Json) (q : List Char),
      cache_get st q ≠ none → cache_get (cache_set st k v) q ≠ none) := by
  refine ⟨?_, ?_, ?_, ?_⟩
  · intro st k v
    simp only [cache_get, cache_set, db_get_put_eq, jsonify_id, jsonLoads_jsonEncode]
  · intro st k v q h
    exact cache_get_set_ne st k v q h
  · intro st items q h
    exact cache_get_set_many_ne st items q h
  · intro st k v q h
    by_cases hq : q = k
    · subst hq
      simp only [cache_get, cache_set, db_get_put_eq, jsonify_id, jsonLoads_jsonEncode]
      exact Option.some_ne_none _
    · rw [cache_get_set_ne st k v q hq]
      exact h

/-- Witness for C4 at a concrete state, key and value. -/
theorem name_cache_memoization_witness :
    cache_get (cache_set [] ['k'] Json.null) ['k'] = some (.parsed Json.null) ∧
    (['a'] ≠ ['k'] ∧
      cache_get (cache_set [] ['k'] Json.null) ['a'] = cache_get [] ['a']) := by
  exact ⟨name_cache_memoization.1 [] ['k'] Json.null,
    by decide,
    name_cache_memoization.2.1 [] ['k'] Json.null ['a'] (by decide)⟩

/-- The character compatibility replacements of `_compat_normalize`
(`：`→`:`, `－`→`-`, `‧`→`·`, `／`→`/`). -/
def compatReplace (c : Char) : Char :=
  if c = '：' then ':'
  else if c = '－' then '-'
  else if c = '‧' then '·'
  else if c = '／' then '/'
  else c

/-- The zero-width / bidi characters `_compat_normalize` deletes
(`[ -‏‪-‮]`). -/
def isZeroWidth (c : Char) : Bool :=
  (0x2000 ≤ c.toNat && c.toNat ≤ 0x200f) || (0x202a ≤ c.toNat && c.toNat ≤ 0x202e)

/-- The whitespace collapse of `_compat_normalize`: every `\s+` run
becomes one space (the flag records whether the previous character was
whitespace). -/
def collapseWsAux : Bool → List Char → List Char
  | _, [] => []
  | insp, c :: rest =>
    if pyIsSpace c then
      if insp then collapseWsAux true rest else ' ' :: collapseWsAux true rest
    else c :: collapseWsAux false rest

/-- `_compat_normalize`. -/
def compat_normalize (s : List Char) : List Char :=
  if s = [] then []
  else pyStrip (collapseWsAux false
    ((s.map compatReplace).filter (fun c => !isZeroWidth c)))

/-- Python `s.strip(chars)`. -/
def stripChars (cs l : List Char) : List Char :=
  ((l.dropWhile (fun c => cs.contains c)).reverse.dropWhile
    (fun c => cs.contains c)).reverse

/-- Python `s.rstrip(chars)`. -/
def rstripChars (cs l : List Char) : List Char :=
  (l.reverse.dropWhile (fun c => cs.contains c)).reverse

/-- The strip set `" .,/;:-—·|"` used throughout the 245 helpers. -/
def stripSet : List Char := " .,/;:-—·|".toList

/-- The literal edition words of `_TRAIL_PAREN_PAT`'s alternation. -/
def trailParenWords : List (List Char) :=
  ["개정", "증보", "개역", "전정", "합본", "전면개정", "개정판", "증보판",
   "신판", "보급판", "최신개정판", "개정증보판", "국역", "번역", "영문판",
   "초판"].map String.toList

/-- `제?\d+\s*판` matched against the whole bracket content. -/
def editionNumMatch (l : List Char) : Bool :=
  let l1 := match l with
    | c :: rest => if c = '제' then rest else l
    | [] => l
  let ds := l1.takeWhile Char.isDigit
  !ds.isEmpty && ((l1.drop ds.length).dropWhile pyIsSpace == ['판'])

/-- The bracket-content alternation of `_TRAIL_PAREN_PAT`: one of the
edition words, `제?\d+\s*판`, or a bracket-free run containing 총서 or
시리즈 (the content handed in is bracket-free by construction). -/
def trailParenContentMatch (content : List Char) : Bool :=
  trailParenWords.contains content ||
  editionNumMatch content ||
  containsSub "총서".toList content ||
  containsSub "시리즈".toList content

def isSqRdBracket (c : Char) : Bool := c = '(' || c = ')' || c = '[' || c = ']'

def isOpenSqRd (c : Char) : Bool := c = '(' || c = '['

def isCloseSqRd (c : Char) : Bool := c = ')' || c = ']'

/-- `_TRAIL_PAREN_PAT.sub("", s)`: remove one trailing `(…)`/`[…]` note
whose bracket-free content matches the alternation, together with the
whitespace around it; otherwise return `s` unchanged.  The match is
anchored at the end, the content may not contain `()[]`, so the only
candidate is the last bracket group of the string. -/
def dropTrailParenNote (s : List Char) : List Char :=
  match s.reverse.dropWhile pyIsSpace with
  | c :: rest =>
    if isCloseSqRd c then
      let contRev := rest.takeWhile (fun x => !isSqRdBracket x)
      match rest.drop contRev.length with
      | o :: pre =>
        if isOpenSqRd o && !contRev.isEmpty &&
            trailParenContentMatch contRev.reverse
        then (pre.dropWhile pyIsSpace).reverse
        else s
      | [] => s
    else s
  | [] => s

/-- `_strip_trailing_paren_notes`. -/
def strip_trailing_paren_notes (s : List Char) : List Char :=
  stripChars stripSet (dropTrailParenNote s)

/-- `_clean_piece`. -/
def clean_piece (s : List Char) : List Char :=
  if s = [] then []
  else stripChars stripSet (strip_trailing_paren_notes (compat_normalize s))

/-- `DELIMS`, in source order. -/
def DELIMS : List (List Char) :=
  [": ", " : ", ":", " - ", " — ", "–", "—", "-", " · ", "·", "; ", ";",
   " | ", "|", "/"].map String.toList

/-- The bracket pairs of `_find_top_level_split`. -/
def pairOf (c : Char) : Option Char :=
  if c = '(' then some ')'
  else if c = '[' then some ']'
  else if c = '\x7b' then some '\x7d'
  else if c = '〈' then some '〉'
  else if c = '《' then some '》'
  else if c = '「' then some '」'
  else if c = '『' then some '』'
  else if c = '“' then some '”'
  else if c = '‘' then some '’'
  else if c = '«' then some '»'
  else none

def isCloseAny (c : Char) : Bool :=
  c = ')' || c = ']' || c = '\x7d' || c = '〉' || c = '》' || c = '」' ||
  c = '』' || c = '”' || c = '’' || c = '»'

/-- `_find_top_level_split`: scan with a bracket stack; outside brackets
try the delimiters in `DELIMS` order and return the index and matched
delimiter of the first hit. -/
def findTopLevelSplit : List Char → List Char → Nat → Option (Nat × List Char)
  | _, [], _ => none
  | stack, c :: rest, i =>
    if (pairOf c).isSome then findTopLevelSplit (c :: stack) rest (i + 1)
    else if isCloseAny c then
      match stack with
      | top :: s' =>
        if pairOf top = some c then findTopLevelSplit s' rest (i + 1)
        else findTopLevelSplit stack rest (i + 1)
      | [] => findTopLevelSplit [] rest (i + 1)
    else
      match stack with
      | [] =>
        match DELIMS.find? (fun d => listStartsWith d (c :: rest)) with
        | some d => some (i, d)
        | none => findTopLevelSplit [] rest (i + 1)
      | _ :: _ => findTopLevelSplit stack rest (i + 1)

/-- `split_title_only_for_245`. -/
def split_title_only_for_245 (title : List Char) : List Char × Option (List Char) :=
  if title = [] then ([], none)
  else
    let t := compat_normalize title
    match findTopLevelSplit [] t 0 with
    | none => (clean_piece t, none)
    | some (idx, d) =>
      let left := t.take idx
      let right := t.drop (idx + d.length)
      (clean_piece left,
       if clean_piece right = [] then none else some (clean_piece right))

/-- The Aladin item fields the 245 builder reads (`[]` models a missing
field, matching the `or ""` fallbacks). -/
structure AladinItem where
  title : List Char
  subTitle : List Char
  originalTitle : List Char
  seriesName : List Char
  seriesId : List Char

/-- `re.search(r"\d\s*$", s)`: the last non-whitespace character exists
and is a digit. -/
def endsWithDigit (s : List Char) : Bool :=
  match s.reverse.dropWhile pyIsSpace with
  | c :: _ => c.isDigit
  | [] => false

/-- `_has_series_evidence`. -/
def has_series_evidence (item : AladinItem) : Bool :=
  !item.seriesName.isEmpty || !item.seriesId.isEmpty ||
  (let orig := pyStrip item.originalTitle
   !orig.isEmpty && !endsWithDigit orig)

/-- `[IVXLCDM]` under `re.IGNORECASE`. -/
def isRomanCI (c : Char) : Bool :=
  ['I', 'V', 'X', 'L', 'C', 'D', 'M',
   'i', 'v', 'x', 'l', 'c', 'd', 'm'].contains c

/-- `_PART_LABEL_RX.search(t)` (the pattern is anchored with `$`): some
suffix of `t` is `제?\s*\d+\s*(권|부|편|책)`, a roman numeral, one of
상/중/하, or one of 전/후. -/
def partLabelHit (t : List Char) : Bool :=
  match t.reverse with
  | [] => false
  | c :: rest =>
    isRomanCI c ||
    ['상', '중', '하', '전', '후'].contains c ||
    (['권', '부', '편', '책'].contains c &&
      (match rest.dropWhile pyIsSpace with
       | d :: _ => d.isDigit
       | [] => false))

/-- `re.search(r"\d+", s)`: the first maximal digit run. -/
def firstDigitRun : List Char → Option (List Char)
  | [] => none
  | c :: rest =>
    if c.isDigit then some ((c :: rest).takeWhile Char.isDigit)
    else firstDigitRun rest

/-- `re.search(r"\s*[\(\[]\s*([^()\[\]]+)\s*[\)\]]\s*$", a)`: a trailing
bracket group with nonempty bracket-free content; returns the text before
the match and the raw content between the brackets. -/
def trailParenAny (a : List Char) : Option (List Char × List Char) :=
  match a.reverse.dropWhile pyIsSpace with
  | c :: rest =>
    if isCloseSqRd c then
      let contRev := rest.takeWhile (fun x => !isSqRdBracket x)
      match rest.drop contRev.length with
      | o :: pre =>
        if isOpenSqRd o && !contRev.isEmpty
        then some ((pre.dropWhile pyIsSpace).reverse, contRev.reverse)
        else none
      | [] => none
    else none
  | [] => none

/-- `re.search(r"\s*(제?\s*\d+\s*(?:권|부|편|책))\s*$", a)`: the text
before the trailing volume label and the label's digit run. -/
def trailVolumeLabel (a : List Char) : Option (List Char × List Char) :=
  match a.reverse.dropWhile pyIsSpace with
  | c :: rest =>
    if ['권', '부', '편', '책'].contains c then
      let r1 := rest.dropWhile pyIsSpace
      let dsRev := r1.takeWhile Char.isDigit
      if dsRev.isEmpty then none
      else
        let r2 := r1.drop dsRev.length
        let r3 := r2.dropWhile pyIsSpace
        let pre := match r3 with
          | j :: p => if j = '제' then p.dropWhile pyIsSpace else r3
          | [] => r3
        some (pre.reverse, dsRev.reverse)
    else none
  | [] => none

/-- `re.search(r"\s*([상중하]|[전후])\s*$", a)`. -/
def trailKorToken (a : List Char) : Option (List Char × Char) :=
  match a.reverse.dropWhile pyIsSpace with
  | c :: rest =>
    if ['상', '중', '하', '전', '후'].contains c
    then some ((rest.dropWhile pyIsSpace).reverse, c)
    else none
  | [] => none

/-- `re.search(r"\s*([IVXLCDM]+)\s*$", a, re.IGNORECASE)`: the maximal
trailing roman-numeral run. -/
def trailRomanToken (a : List Char) : Option (List Char × List Char) :=
  match a.reverse.dropWhile pyIsSpace with
  | c :: rest =>
    if isRomanCI c then
      let runRev := (c :: rest).takeWhile isRomanCI
      some ((((c :: rest).drop runRev.length).dropWhile pyIsSpace).reverse,
        runRev.reverse)
    else none
  | [] => none

/-- `re.search(r"\s*(\d{1,3})\s*$", a)`: at most the last three digits of
the trailing digit run; when the run is longer than three the match
starts inside it and absorbs no whitespace. -/
def trailNum3 (a : List Char) : Option (List Char × List Char) :=
  match a.reverse.dropWhile pyIsSpace with
  | c :: rest =>
    if c.isDigit then
      let runRev := (c :: rest).takeWhile Char.isDigit
      let grpRev := runRev.take 3
      let pre := (c :: rest).drop grpRev.length
      let pre2 := if runRev.length ≤ 3 then pre.dropWhile pyIsSpace else pre
      some (pre2.reverse, grpRev.reverse)
    else none
  | [] => none

/-- `re.fullmatch(r"\d+|[IVXLCDM]+", a, re.IGNORECASE)`. -/
def isAllDigitsOrRoman (a : List Char) : Bool :=
  !a.isEmpty && (a.all Char.isDigit || a.all isRomanCI)

/-- `_split_part_suffix_for_245`. -/
def split_part_suffix_for_245 (a_raw : List Char) (item : AladinItem) :
    List Char × Option (List Char) :=
  if a_raw = [] then ([], none)
  else
    let a := clean_piece a_raw
    if isAllDigitsOrRoman a then (a, none)
    else
      let branch2 := match trailParenAny a with
        | some (pre, content) =>
          let tok := pyStrip content
          if partLabelHit tok
          then some (rstripChars stripSet pre,
            some ((firstDigitRun tok).getD tok))
          else none
        | none => none
      match branch2 with
      | some r => r
      | none =>
        match trailVolumeLabel a with
        | some (pre, ds) => (rstripChars stripSet pre, some ds)
        | none =>
          match trailKorToken a with
          | some (pre, c) => (rstripChars stripSet pre, some [c])
          | none =>
            match trailRomanToken a with
            | some (pre, tok) => (rstripChars stripSet pre, some tok)
            | none =>
              match trailNum3 a with
              | some (pre, ds) =>
                if has_series_evidence item then
                  let a_base := rstripChars stripSet pre
                  if a_base ≠ [] then (a_base, some ds) else (a, none)
                else (a, none)
              | none => (a, none)

/-- The tail patterns `f" : {s}"` … `f"-{s}"` the builder strips from the
title when the subtitle is echoed there. -/
def tailPatterns (s : List Char) : List (List Char) :=
  [' ' :: ':' :: ' ' :: s, ':' :: ' ' :: s, ':' :: s,
   ' ' :: '-' :: ' ' :: s, '-' :: ' ' :: s, '-' :: s]

/-- The builder's output dict (fields `a`, `b`, `n`, `mrk`). -/
structure R245 where
  a : List Char
  b : Option (List Char)
  n : Option (List Char)
  mrk : List Char

/-- Python truthiness of an optional string. -/
def optTruthy : Option (List Char) → Bool
  | none => false
  | some v => !v.isEmpty

/-- The f-string assembly of the `=245` line:
`f"=245  00$a{a_out}"`, then `" "`/`" ."` + `f"$n{n}"` when `n` is
truthy, then `f" :$b{b}"` when `b` is truthy. -/
def mk245line (a_out : List Char) (n b : Option (List Char)) : List Char :=
  let base := '=' :: '2' :: '4' :: '5' :: ' ' :: ' ' :: '0' :: '0' ::
    '$' :: 'a' :: a_out
  let withN :=
    if optTruthy n then
      base ++ (if listEndsWith ['.'] a_out then [' '] else [' ', '.']) ++
        ('$' :: 'n' :: n.getD [])
    else base
  if optTruthy b then withN ++ (' ' :: ':' :: '$' :: 'b' :: b.getD [])
  else withN

/-- `extract_245_from_aladin_item`. -/
def extract_245_from_aladin_item (item : AladinItem)
    (collapse_a_spaces : Bool) : R245 :=
  let t := compat_normalize item.title
  let s := clean_piece item.subTitle
  let ab : List Char × Option (List Char) :=
    if s ≠ [] then
      let t_removed :=
        match (tailPatterns s).find? (fun p => listEndsWith p t) with
        | some p => t.take (t.length - p.length)
        | none => t
      (if clean_piece t_removed ≠ [] then clean_piece t_removed
       else clean_piece t, some s)
    else split_title_only_for_245 t
  let an := split_part_suffix_for_245 ab.1 item
  let a_out := if collapse_a_spaces then an.1.filter (fun c => c ≠ ' ')
    else an.1
  ⟨a_out, ab.2, an.2, mk245line a_out an.2 ab.2⟩

/-- One candidate position of `re.search(r"=245\s+\d{2}\$a…")`: on
success, the text after `$a`. -/
def match245At (l : List Char) : Option (List Char) :=
  if listStartsWith "=245".toList l then
    let r := l.drop 4
    let sp := r.takeWhile pyIsSpace
    if sp.isEmpty then none
    else
      match r.drop sp.length with
      | d1 :: d2 :: c3 :: c4 :: rest =>
        if d1.isDigit && d2.isDigit && c3 = '$' && c4 = 'a' then some rest
        else none
      | _ => none
  else none

/-- Leftmost match of `=245\s+\d{2}\$a`. -/
def searchA245 : List Char → Option (List Char)
  | [] => none
  | c :: rest =>
    match match245At (c :: rest) with
    | some r => some r
    | none => searchA245 rest

/-- The lazy capture `(.*?)(?=\$[a-z]|$)`: everything up to the first
`$` followed by a lowercase letter, or to the end. -/
def captureUpTo : List Char → List Char
  | [] => []
  | c :: rest =>
    if c = '$' then
      match rest with
      | d :: _ =>
        if 'a' ≤ d && d ≤ 'z' then [] else c :: captureUpTo rest
      | [] => [c]
    else c :: captureUpTo rest

/-- `re.search(r"\$n…")`: the text after the first `$n`. -/
def searchDollarN : List Char → Option (List Char)
  | [] => none
  | c :: rest =>
    if c = '$' then
      match rest with
      | d :: rest2 => if d = 'n' then some rest2 else searchDollarN rest
      | [] => none
    else searchDollarN rest

/-- `re.sub(r"\s+([:;,./])", r"\1", s)` (`pend` holds the pending
whitespace run, reversed). -/
def squeezeAux : List Char → List Char → List Char
  | pend, [] => pend.reverse
  | pend, c :: rest =>
    if pyIsSpace c then squeezeAux (c :: pend) rest
    else if !pend.isEmpty && [':', ';', ',', '.', '/'].contains c then
      c :: squeezeAux [] rest
    else pend.reverse ++ c :: squeezeAux [] rest

/-- `re.sub(r"[.:;,/]\s*$", "", s)`: drop one trailing punctuation mark
together with the whitespace after it. -/
def dropTrailPunct (s : List Char) : List Char :=
  match s.reverse.dropWhile pyIsSpace with
  | c :: rest =>
    if ['.', ':', ';', ',', '/'].contains c then rest.reverse else s
  | [] => s

/-- `parse_245_a_n` (the lines this repository feeds it contain no
newline, so `.`-excludes-`\n` needs no modelling). -/
def parse_245_a_n (line : List Char) : List Char × Option (List Char) :=
  if line = [] then ([], none)
  else
    let aCap := match searchA245 line with
      | some rest => pyStrip (captureUpTo rest)
      | none => []
    let a1 := squeezeAux [] (pyStrip aCap)
    let a2 := pyStrip (dropTrailPunct a1)
    let nVal := match searchDollarN line with
      | some rest =>
        let v := pyStrip (captureUpTo rest)
        if v = [] then none else some v
      | none => none
    (a2, nVal)

theorem dropWhile_head_false (p : Char → Bool) (l : List Char)
    (h : ∀ c ∈ l, p c = false) : l.dropWhile p = l := by
  cases l with
  | nil => rfl
  | cons c t => simp [List.dropWhile_cons, h c (by simp)]

theorem pyStrip_eq_self (l : List Char) (h : ∀ c ∈ l, pyIsSpace c = false) :
    pyStrip l = l := by
  rw [pyStrip, pyStripLeft, dropWhile_head_false _ _ h, pyStripRight,
    dropWhile_head_false _ _ (fun c hc => h c (by simpa using hc))]
  simp

theorem pyStrip_append_sp_tail (a : List Char) (x : Char)
    (ha : ∀ c ∈ a, pyIsSpace c = false) (hane : a ≠ [])
    (hx : pyIsSpace x = false) :
    pyStrip (a ++ [' ', x]) = a ++ [' ', x] := by
  cases a with
  | nil => exact absurd rfl hane
  | cons c t =>
    rw [pyStrip, pyStripLeft, List.cons_append, List.dropWhile_cons]
    rw [ha c (by simp)]
    simp only [Bool.false_eq_true, if_false, pyStripRight]
    simp [List.dropWhile_cons, hx]

theorem squeezeAux_nospace_append (a t : List Char)
    (h : ∀ c ∈ a, pyIsSpace c = false) :
    squeezeAux [] (a ++ t) = a ++ squeezeAux [] t := by
  induction a with
  | nil => rfl
  | cons c a' ih =>
    rw [List.cons_append, squeezeAux, h c (by simp)]
    simp only [Bool.false_eq_true, if_false, List.isEmpty_nil]
    rw [ih (fun d hd => h d (by simp [hd]))]
    simp

theorem dropTrailPunct_append (a : List Char) (x : Char)
    (hx : (['.', ':', ';', ',', '/'].contains x) = true)
    (hxs : pyIsSpace x = false) :
    dropTrailPunct (a ++ [x]) = a := by
  rw [dropTrailPunct]
  rw [show ((a ++ [x]) : List Char).reverse = x :: a.reverse by simp]
  rw [List.dropWhile_cons, hxs]
  simp only [Bool.false_eq_true, if_false, hx, if_true, List.reverse_reverse]

theorem dropTrailPunct_eq_self (a : List Char)
    (hsp : ∀ c ∈ a, pyIsSpace c = false)
    (hL : ∀ c, a.getLast? = some c →
      (['.', ':', ';', ',', '/'].contains c) = false) :
    dropTrailPunct a = a := by
  induction a using List.reverseRecOn with
  | nil => rfl
  | append_singleton a' x _ =>
    rw [dropTrailPunct]
    rw [show ((a' ++ [x]) : List Char).reverse = x :: a'.reverse by simp]
    rw [List.dropWhile_cons, hsp x (by simp)]
    simp only [Bool.false_eq_true, if_false]
    rw [hL x (by simp)]
    simp

theorem captureUpTo_eq_self (l : List Char) (h : ∀ c ∈ l, c ≠ '$') :
    captureUpTo l = l := by
  induction l with
  | nil => rfl
  | cons c rest ih =>
    have hc : (c = '$') = False := eq_false (h c (by simp))
    simp only [captureUpTo, hc, if_false]
    rw [ih (fun d hd => h d (by simp [hd]))]

theorem captureUpTo_stop (xs zs : List Char) (d : Char)
    (h : ∀ c ∈ xs, c ≠ '$') (hd : ('a' ≤ d && d ≤ 'z') = true) :
    captureUpTo (xs ++ '$' :: d :: zs) = xs := by
  induction xs with
  | nil =>
    rw [List.nil_append, captureUpTo, if_pos rfl]
    simp [hd]
  | cons c rest ih =>
    have hc : (c = '$') = False := eq_false (h c (by simp))
    simp only [List.cons_append, captureUpTo, hc, if_false, List.append_eq]
    rw [ih (fun e he => h e (by simp [he]))]

theorem searchDollarN_skip (xs l : List Char) (h : ∀ c ∈ xs, c ≠ '$') :
    searchDollarN (xs ++ l) = searchDollarN l := by
  induction xs with
  | nil => rfl
  | cons c rest ih =>
    have hc : (c = '$') = False := eq_false (h c (by simp))
    simp only [List.cons_append, searchDollarN, hc, if_false]
    exact ih (fun d hd => h d (by simp [hd]))

theorem searchA245_at0 (t : List Char) :
    searchA245 ('=' :: '2' :: '4' :: '5' :: ' ' :: ' ' :: '0' :: '0' ::
      '$' :: 'a' :: t) = some t := rfl

theorem searchDollarN_front (t : List Char) :
    searchDollarN ('=' :: '2' :: '4' :: '5' :: ' ' :: ' ' :: '0' :: '0' ::
      '$' :: 'a' :: t) = searchDollarN t := rfl

theorem searchDollarN_sepN (w : List Char) :
    searchDollarN (' ' :: '.' :: '$' :: 'n' :: w) = some w := rfl

theorem searchDollarN_sepN1 (w : List Char) :
    searchDollarN (' ' :: '$' :: 'n' :: w) = some w := rfl

theorem searchDollarN_sepB (w : List Char) :
    searchDollarN (' ' :: ':' :: '$' :: 'b' :: w) = searchDollarN w := rfl

theorem listEndsWith_dot_false (a : List Char)
    (hAl : ∀ c, a.getLast? = some c →
      (['.', ':', ';', ',', '/'].contains c) = false) :
    listEndsWith ['.'] a = false := by
  induction a using List.reverseRecOn with
  | nil => rfl
  | append_singleton a' x _ =>
    have hx := hAl x (by simp)
    have hxdot : x ≠ '.' := by
      intro he
      rw [he] at hx
      exact absurd hx (by decide)
    simp [listEndsWith, listStartsWith, Ne.symm hxdot]

/-- What the parser hands back as `$n` for a line built from `n`/`b`:
nothing when no `$n` was emitted, the builder's `n` when no `$b`
follows, and `n` plus ` :` when one does. -/
def expected_n (n b : Option (List Char)) : Option (List Char) :=
  match n with
  | none => none
  | some v => if optTruthy b then some (v ++ [' ', ':']) else some v

theorem mk245_parse (a : List Char) (n b : Option (List Char))
    (hA : ∀ c ∈ a, pyIsSpace c = false ∧ c ≠ '$')
    (hAl : ∀ c, a.getLast? = some c →
      (['.', ':', ';', ',', '/'].contains c) = false)
    (hN : ∀ v, n = some v → v ≠ [] ∧ ∀ c ∈ v, pyIsSpace c = false ∧ c ≠ '$')
    (hB : ∀ v, b = some v → ∀ c ∈ v, c ≠ '$') :
    parse_245_a_n (mk245line a n b) = (a, expected_n n b) := by
  have hAsp : ∀ c ∈ a, pyIsSpace c = false := fun c hc => (hA c hc).1
  have hAd : ∀ c ∈ a, c ≠ '$' := fun c hc => (hA c hc).2
  have hend := listEndsWith_dot_false a hAl
  have hnil : ∀ (t : List Char),
      ('=' :: '2' :: '4' :: '5' :: ' ' :: ' ' :: '0' :: '0' :: '$' :: 'a' ::
        t : List Char) ≠ [] := fun t => by simp
  have hstage0 : pyStrip (dropTrailPunct (squeezeAux []
      (pyStrip (pyStrip (captureUpTo a))))) = a := by
    rw [captureUpTo_eq_self a hAd, pyStrip_eq_self a hAsp,
      pyStrip_eq_self a hAsp]
    have hsq : squeezeAux [] a = a := by
      have h := squeezeAux_nospace_append a [] hAsp
      simpa [show squeezeAux [] ([] : List Char) = [] from rfl] using h
    rw [hsq, dropTrailPunct_eq_self a hAsp hAl, pyStrip_eq_self a hAsp]
  have hstage : ∀ (x : Char) (d : Char) (zs : List Char),
      ('a' ≤ d && d ≤ 'z') = true → x = '.' ∨ x = ':' →
      pyStrip (dropTrailPunct (squeezeAux [] (pyStrip (pyStrip
        (captureUpTo (a ++ ' ' :: x :: '$' :: d :: zs)))))) = a := by
    intro x d zs hd hx
    have hxs : pyIsSpace x = false := by
      rcases hx with h | h <;> subst h <;> decide
    have hxp : (['.', ':', ';', ',', '/'].contains x) = true := by
      rcases hx with h | h <;> subst h <;> decide
    have hxd : ∀ c ∈ (a ++ [' ', x]), c ≠ '$' := by
      intro c hc
      rcases List.mem_append.mp hc with h | h
      · exact hAd c h
      · rcases hx with h' | h' <;> subst h' <;>
          (simp at h; rcases h with h | h <;> subst h <;> decide)
    have hsplit : a ++ ' ' :: x :: '$' :: d :: zs =
        (a ++ [' ', x]) ++ '$' :: d :: zs := by simp
    rw [hsplit, captureUpTo_stop _ zs d hxd hd]
    by_cases ha0 : a = []
    · subst ha0
      simp only [List.nil_append]
      rcases hx with h | h <;> subst h <;> decide
    · rw [pyStrip_append_sp_tail a x hAsp ha0 hxs]
      rw [pyStrip_append_sp_tail a x hAsp ha0 hxs]
      rw [squeezeAux_nospace_append a [' ', x] hAsp]
      have hsq : squeezeAux [] [' ', x] = [x] := by
        rcases hx with h | h <;> subst h <;> decide
      rw [hsq, dropTrailPunct_append a x hxp hxs]
      exact pyStrip_eq_self a hAsp
  rcases n with _ | v
  · -- no $n emitted
    by_cases hob : optTruthy b = true
    · obtain ⟨bv, rfl⟩ : ∃ bv, b = some bv := by
        cases b with
        | none => simp [optTruthy] at hob
        | some bv => exact ⟨bv, rfl⟩
      have hbvd : ∀ c ∈ bv, c ≠ '$' := hB bv rfl
      have hline : mk245line a none (some bv) =
          '=' :: '2' :: '4' :: '5' :: ' ' :: ' ' :: '0' :: '0' :: '$' ::
            'a' :: (a ++ ' ' :: ':' :: '$' :: 'b' :: bv) := by
        simp [mk245line, hob,
          show optTruthy (none : Option (List Char)) = false from rfl]
      have f1 : searchDollarN ('=' :: '2' :: '4' :: '5' :: ' ' :: ' ' ::
          '0' :: '0' :: '$' :: 'a' :: (a ++ ' ' :: ':' :: '$' :: 'b' :: bv)) =
          none := by
        rw [searchDollarN_front, searchDollarN_skip a _ hAd,
          searchDollarN_sepB]
        have h2 := searchDollarN_skip bv [] hbvd
        simpa using h2
      have hst := hstage ':' 'b' bv (by decide) (Or.inr rfl)
      rw [hline]
      simp [parse_245_a_n, searchA245_at0, f1, hst, expected_n]
    · have hobf : optTruthy b = false := by
        revert hob
        cases optTruthy b <;> simp
      have hline : mk245line a none b =
          '=' :: '2' :: '4' :: '5' :: ' ' :: ' ' :: '0' :: '0' :: '$' ::
            'a' :: a := by
        simp [mk245line, hobf,
          show optTruthy (none : Option (List Char)) = false from rfl]
      have f1 : searchDollarN ('=' :: '2' :: '4' :: '5' :: ' ' :: ' ' ::
          '0' :: '0' :: '$' :: 'a' :: a) = none := by
        rw [searchDollarN_front]
        have h2 := searchDollarN_skip a [] hAd
        simpa using h2
      rw [hline]
      simp [parse_245_a_n, searchA245_at0, f1, hstage0, hobf, expected_n]
  · -- $n emitted
    obtain ⟨hvne, hvc⟩ := hN v rfl
    have hvsp : ∀ c ∈ v, pyIsSpace c = false := fun c hc => (hvc c hc).1
    have hvd : ∀ c ∈ v, c ≠ '$' := fun c hc => (hvc c hc).2
    have hont : optTruthy (some v) = true := by simp [optTruthy, hvne]
    by_cases hob : optTruthy b = true
    · obtain ⟨bv, rfl⟩ : ∃ bv, b = some bv := by
        cases b with
        | none => simp [optTruthy] at hob
        | some bv => exact ⟨bv, rfl⟩
      have hbvd : ∀ c ∈ bv, c ≠ '$' := hB bv rfl
      have hline : mk245line a (some v) (some bv) =
          '=' :: '2' :: '4' :: '5' :: ' ' :: ' ' :: '0' :: '0' :: '$' ::
            'a' :: (a ++ ' ' :: '.' :: '$' :: 'n' ::
              (v ++ ' ' :: ':' :: '$' :: 'b' :: bv)) := by
        simp [mk245line, hont, hend, hob]
      have f1 : searchDollarN ('=' :: '2' :: '4' :: '5' :: ' ' :: ' ' ::
          '0' :: '0' :: '$' :: 'a' :: (a ++ ' ' :: '.' :: '$' :: 'n' ::
            (v ++ ' ' :: ':' :: '$' :: 'b' :: bv))) =
          some (v ++ ' ' :: ':' :: '$' :: 'b' :: bv) := by
        rw [searchDollarN_front, searchDollarN_skip a _ hAd,
          searchDollarN_sepN]
      have hvd2 : ∀ c ∈ (v ++ [' ', ':']), c ≠ '$' := by
        intro c hc
        rcases List.mem_append.mp hc with h | h
        · exact hvd c h
        · simp at h
          rcases h with h | h <;> subst h <;> decide
      have hnc : pyStrip (captureUpTo
          (v ++ ' ' :: ':' :: '$' :: 'b' :: bv)) = v ++ [' ', ':'] := by
        rw [show v ++ ' ' :: ':' :: '$' :: 'b' :: bv =
          (v ++ [' ', ':']) ++ '$' :: 'b' :: bv by simp]
        rw [captureUpTo_stop _ bv 'b' hvd2 (by decide)]
        exact pyStrip_append_sp_tail v ':' hvsp hvne (by decide)
      have hst := hstage '.' 'n'
        (v ++ ' ' :: ':' :: '$' :: 'b' :: bv) (by decide) (Or.inl rfl)
      rw [hline]
      simp [parse_245_a_n, searchA245_at0, f1, hst, hnc, hob, expected_n]
    · have hobf : optTruthy b = false := by
        revert hob
        cases optTruthy b <;> simp
      have hline : mk245line a (some v) b =
          '=' :: '2' :: '4' :: '5' :: ' ' :: ' ' :: '0' :: '0' :: '$' ::
            'a' :: (a ++ ' ' :: '.' :: '$' :: 'n' :: v) := by
        simp [mk245line, hont, hend, hobf]
      have f1 : searchDollarN ('=' :: '2' :: '4' :: '5' :: ' ' :: ' ' ::
          '0' :: '0' :: '$' :: 'a' :: (a ++ ' ' :: '.' :: '$' :: 'n' :: v)) =
          some v := by
        rw [searchDollarN_front, searchDollarN_skip a _ hAd,
          searchDollarN_sepN]
      have hnc : pyStrip (captureUpTo v) = v := by
        rw [captureUpTo_eq_self v hvd, pyStrip_eq_self v hvsp]
      have hst := hstage '.' 'n' v (by decide) (Or.inl rfl)
      rw [hline]
      simp [parse_245_a_n, searchA245_at0, f1, hst, hnc, hvne, hobf, expected_n]

/-- C3 counterexample: for the Aladin item with title
`여행 제1권 : 떠나다` and subtitle `떠나다` the builder stores `1` as its
`$n` value, but because a `$b` follows, the parser's lazy capture for
`$n` only stops at the next subfield marker and returns `1 :`. -/
theorem build_parse_245_counterexample :
    (extract_245_from_aladin_item
      ⟨"여행 제1권 : 떠나다".toList, "떠나다".toList, [], [], []⟩ true).n =
        some "1".toList ∧
    (parse_245_a_n (extract_245_from_aladin_item
      ⟨"여행 제1권 : 떠나다".toList, "떠나다".toList, [], [], []⟩ true).mrk).2 =
        some "1 :".toList ∧
    (parse_245_a_n (extract_245_from_aladin_item
      ⟨"여행 제1권 : 떠나다".toList, "떠나다".toList, [], [], []⟩ true).mrk).2 ≠
      (extract_245_from_aladin_item
        ⟨"여행 제1권 : 떠나다".toList, "떠나다".toList, [], [], []⟩ true).n := by
  refine ⟨by decide, by decide, by decide⟩

/-- C3 (corrected): for every Aladin item whose builder output satisfies
the invariants the builder's cleaning in fact establishes — the emitted
`$a` is whitespace-free (spaces are collapsed then removed) and contains
no `$` and no trailing `.:;,/`, the emitted `$n` value is a nonempty
whitespace- and `$`-free token, and the `$b` value contains no `$` —
re-parsing the emitted `=245` line with `parse_245_a_n` recovers the
builder's `a` exactly, and recovers `$n` as `None` exactly when the
builder emitted no `$n`, as the builder's `n` when no `$b` follows, and
as the builder's `n` followed by ` :` when a `$b` follows. -/
theorem extract_245_parse_roundtrip (item : AladinItem)
    (hA : ∀ c ∈ (extract_245_from_aladin_item item true).a,
      pyIsSpace c = false ∧ c ≠ '$')
    (hAl : ∀ c, (extract_245_from_aladin_item item true).a.getLast? = some c →
      (['.', ':', ';', ',', '/'].contains c) = false)
    (hN : ∀ v, (extract_245_from_aladin_item item true).n = some v →
      v ≠ [] ∧ ∀ c ∈ v, pyIsSpace c = false ∧ c ≠ '$')
    (hB : ∀ v, (extract_245_from_aladin_item item true).b = some v →
      ∀ c ∈ v, c ≠ '$') :
    parse_245_a_n (extract_245_from_aladin_item item true).mrk =
      ((extract_245_from_aladin_item item true).a,
       expected_n (extract_245_from_aladin_item item true).n
         (extract_245_from_aladin_item item true).b) := by
  have hm : (extract_245_from_aladin_item item true).mrk =
      mk245line (extract_245_from_aladin_item item true).a
        (extract_245_from_aladin_item item true).n
        (extract_245_from_aladin_item item true).b := rfl
  rw [hm]
  exact mk245_parse _ _ _ hA hAl hN hB

/-- Witness for C3 at the counterexample item: the hypotheses hold and
the parsed `$n` is the builder's `1` with ` :` appended. -/
theorem extract_245_parse_roundtrip_witness :
    parse_245_a_n (extract_245_from_aladin_item
      ⟨"여행 제1권 : 떠나다".toList, "떠나다".toList, [], [], []⟩ true).mrk =
      ((extract_245_from_aladin_item
        ⟨"여행 제1권 : 떠나다".toList, "떠나다".toList, [], [], []⟩ true).a,
       expected_n (extract_245_from_aladin_item
         ⟨"여행 제1권 : 떠나다".toList, "떠나다".toList, [], [], []⟩ true).n
        (extract_245_from_aladin_item
         ⟨"여행 제1권 : 떠나다".toList, "떠나다".toList, [], [], []⟩ true).b) :=
  extract_245_parse_roundtrip
    ⟨"여행 제1권 : 떠나다".toList, "떠나다".toList, [], [], []⟩
    (by decide) (by decide) (by decide) (by decide)
